import Mathlib

/-!
EKA2L1 socket host resolver: embedding of `services/src/socket/resolver.cpp`

The handlers of `socket_host_resolver` and its `dispatch` are translated as
state-passing functions over a `world`: the argument slots of the message in
guest memory, the resolver backend, the owning session's subsession table and
the ordered trace of every call a handler makes on its collaborators.

Declarations that `resolver.cpp` only includes (`server.h`, `host.h`,
`utils/err.h`, `system/epoc.h`, the `ipc_context` accessors) are either fields
of `headers` / `host_resolver` (parameters) or small models marked as such.
-/

namespace eka2l1.epoc.socket

/-- A `std::u16string`: a sequence of 16-bit code units. -/
abbrev u16string := List Nat

/-- Enumerators and sizes that `resolver.cpp` uses but that are declared in
headers outside the sources at hand; every theorem takes them as parameters. -/
structure headers where
  socket_old_hr_get_host_name : Int
  socket_old_hr_set_host_name : Int
  socket_old_hr_close : Int
  socket_old_hr_get_by_address : Int
  socket_old_hr_cancel : Int
  socket_old_hr_next : Int
  socket_reform_hr_get_by_name : Int
  socket_reform_hr_get_by_addr : Int
  socket_reform_hr_get_host_name : Int
  socket_reform_hr_close : Int
  socket_reform_hr_next : Int
  socket_hr_get_by_name : Int
  socket_hr_close : Int
  epoc95 : Nat
  error_none : Int
  error_general : Int
  error_argument : Int
  error_eof : Int
  sizeof_name_entry : Nat
deriving DecidableEq, Repr

/-- The case labels of the three `switch` statements of `dispatch`. -/
def headers.old_labels (hd : headers) : List Int :=
  [hd.socket_old_hr_get_host_name, hd.socket_old_hr_set_host_name, hd.socket_old_hr_close,
   hd.socket_old_hr_get_by_address, hd.socket_old_hr_cancel, hd.socket_old_hr_next]

def headers.reform_labels (hd : headers) : List Int :=
  [hd.socket_reform_hr_get_by_name, hd.socket_reform_hr_get_by_addr,
   hd.socket_reform_hr_get_host_name, hd.socket_reform_hr_close, hd.socket_reform_hr_next]

def headers.base_labels (hd : headers) : List Int :=
  [hd.socket_hr_get_by_name, hd.socket_hr_close]

/-- What the C++ compiler enforces on the enumerators: the case labels of one
`switch` are pairwise different (a duplicate label does not compile). -/
def headers.labels_distinct (hd : headers) : Prop :=
  hd.old_labels.Nodup ∧ hd.reform_labels.Nodup ∧ hd.base_labels.Nodup

instance (hd : headers) : Decidable hd.labels_distinct := by
  unfold headers.labels_distinct; infer_instance

/-- Modelled from the spec: the Address Query Value `saddress` (declared in
`host.h`), a value object with an OS-defined binary layout, kept as its bytes. -/
structure saddress where
  bytes : List Nat
deriving DecidableEq, Repr

/-- Modelled from the spec: the Name Entry record `name_entry` (declared in
`host.h`): resolved name, resolved address, auxiliary service metadata, flags.
Only the field `name_` is named by `resolver.cpp`. -/
structure name_entry where
  name_ : u16string
  addr_ : saddress
  service_ : List Nat
  flags_ : Nat
deriving DecidableEq, Repr

/-- The two constructor arguments of `epoc::notify_info`: the request-status
address and the thread to resume. This is the completion token. -/
structure notify_info where
  sts : Nat
  requester : Nat
deriving DecidableEq, Repr

/-- Modelled from the spec: an outbound buffer descriptor of a slot, with its
capacity, its length field, and the bytes behind its pointer viewed as the
`name_entry` that the handlers `reinterpret_cast` them to. -/
structure descriptor where
  max_length : Nat
  length : Nat
  entry : name_entry
deriving DecidableEq, Repr

/-- Modelled from the spec: one argument slot of a Request Message, given by
what each `ipc_context` accessor used in `resolver.cpp` yields on it:
`text` for `get_argument_value<std::u16string>`, `address` for
`get_argument_data_from_descriptor<saddress>`, and `des` for
`get_descriptor_argument_ptr` (`none` is the null pointer). -/
structure ipc_arg where
  text : Option u16string
  address : Option saddress
  des : Option descriptor
deriving DecidableEq, Repr

/-- Applies an update to the descriptor of a slot, when it has one. -/
def ipc_arg.with_des (a : ipc_arg) (f : descriptor → descriptor) : ipc_arg :=
  { a with des := a.des.map f }

/-- The fields of `ctx->msg` that `resolver.cpp` reads. -/
structure ipc_msg where
  function : Int
  request_sts : Nat
  own_thr : Nat
deriving DecidableEq, Repr

/-- The read-only part of `service::ipc_context`: the message and
`ctx->sys->get_symbian_version_use()`. -/
structure ipc_context where
  msg : ipc_msg
  symbian_version_use : Nat
deriving DecidableEq, Repr

/-- Every call a handler makes on a collaborator, in program order, and every
fulfilment the backend performs on a token while it is being called. -/
inductive event where
  | complete (code : Int)
  | write_arg (idx : Nat) (data : u16string)
  | set_descriptor_argument_length (idx : Nat) (len : Nat)
  | host_name
  | set_host_name (name : u16string)
  | get_by_name (entry : name_entry) (info : notify_info)
  | get_by_address (addr : saddress) (entry : name_entry) (info : notify_info)
  | next (entry : name_entry) (info : notify_info)
  | cancel
  | notify_complete (info : notify_info) (code : Int)
  | remove (id : Nat)
  | log_error (function : Int)
deriving DecidableEq, Repr

/-- What a backend operation that takes a `name_entry *` and a token has done
when it returns: its new state, the entry as it left it, and the fulfilments
(`notify_info::complete`) it performed during the call, in order. -/
structure reply (β : Type) where
  backend : β
  entry : name_entry
  completed : List (notify_info × Int)

/-- The virtual interface `host_resolver` (declared in `host.h`) over a
backend state `β`; `socket_host_resolver` calls it through `resolver_`. -/
structure host_resolver (β : Type) where
  host_name : β → u16string
  set_host_name : β → u16string → Bool × β
  get_by_name : β → name_entry → notify_info → reply β
  get_by_address : β → saddress → name_entry → notify_info → reply β
  next : β → name_entry → notify_info → reply β
  cancel : β → β × List (notify_info × Int)

/-- The base-class body `host_resolver::next`: the entry is not touched and
the token is completed with `epoc::error_eof`. -/
def host_resolver.next_default {β : Type} (hd : headers) (b : β) (result : name_entry)
    (complete_info : notify_info) : reply β :=
  { backend := b, entry := result, completed := [(complete_info, hd.error_eof)] }

/-- Modelled from the spec: the Subsession Table `parent_->subsessions_`, a
mapping from integer handle to subsession identity. -/
abbrev subsession_table := List (Nat × Nat)

/-- Modelled from the spec: `subsessions_.remove(id)` drops the entry stored
under handle `id`. -/
def subsession_table.remove (t : subsession_table) (id : Nat) : subsession_table :=
  t.filter (fun e => e.1 != id)

/-- Modelled from the spec: the subsession a handle is mapped to, if any. -/
def subsession_table.lookup (t : subsession_table) (handle : Nat) : Option Nat :=
  (t.find? (fun e => e.1 == handle)).map Prod.snd

/-- The handles of a table; a mapping holds each handle at most once. -/
def subsession_table.handles (t : subsession_table) : List Nat :=
  t.map Prod.fst

/-- The mutable state a handler runs in. -/
structure world (β : Type) where
  args : List ipc_arg
  backend : β
  subsessions : subsession_table
  trace : List event

/-- The members of `socket_host_resolver` besides `resolver_`:
`parent_->is_oldarch()` and `id_`. -/
structure subsession where
  is_oldarch : Bool
  id_ : Nat
deriving DecidableEq, Repr

section accessors
variable {β : Type}

/-- Appends one event to the trace. -/
def world.emit (w : world β) (e : event) : world β :=
  { w with trace := w.trace ++ [e] }

/-- Modelled from the spec: `ctx->complete(code)` fulfils the request. -/
def complete (w : world β) (code : Int) : world β :=
  w.emit (event.complete code)

/-- Modelled from the spec: `ctx->get_argument_value<std::u16string>(idx)`. -/
def get_argument_value (w : world β) (idx : Nat) : Option u16string :=
  (w.args[idx]?).bind ipc_arg.text

/-- Modelled from the spec: `ctx->get_argument_data_from_descriptor<saddress>(idx)`. -/
def get_argument_data_from_descriptor (w : world β) (idx : Nat) : Option saddress :=
  (w.args[idx]?).bind ipc_arg.address

/-- The descriptor held by slot `idx`, if the slot exists and holds one. -/
def descriptor_of (w : world β) (idx : Nat) : Option descriptor :=
  (w.args[idx]?).bind ipc_arg.des

/-- Modelled from the spec: `ctx->get_descriptor_argument_ptr(idx)`. It takes
the slot index only, so the pointer is non-null exactly when the slot holds a
descriptor; the result is the record currently behind the pointer. -/
def get_descriptor_argument_ptr (w : world β) (idx : Nat) : Option name_entry :=
  (descriptor_of w idx).map descriptor.entry

/-- A store through the `name_entry *` taken from slot `idx`. -/
def store_entry (w : world β) (idx : Nat) (e : name_entry) : world β :=
  { w with args := w.args.modify (fun a => a.with_des (fun d => { d with entry := e })) idx }

/-- Modelled from the spec: `ctx->set_descriptor_argument_length(idx, len)`
writes `len` into the length field of the slot's descriptor. -/
def set_descriptor_argument_length (w : world β) (idx : Nat) (len : Nat) : world β :=
  world.emit { w with args := w.args.modify (fun a => a.with_des (fun d => { d with length := len })) idx }
    (event.set_descriptor_argument_length idx len)

/-- Modelled from the spec: `ctx->write_arg(idx, data)`; the write into the
guest descriptor is kept as an event. -/
def write_arg (w : world β) (idx : Nat) (data : u16string) : world β :=
  w.emit (event.write_arg idx data)

/-- The events for the fulfilments a backend performed during a call. -/
def notifications (cs : List (notify_info × Int)) : List event :=
  cs.map (fun c => event.notify_complete c.1 c.2)

/-- Records the fulfilments a backend performed during a call. -/
def world.notified (w : world β) (cs : List (notify_info × Int)) : world β :=
  { w with trace := w.trace ++ notifications cs }

/-- Takes over what a backend operation on slot 1's entry has done. -/
def world.returned (w : world β) (r : reply β) : world β :=
  (store_entry { w with backend := r.backend } 1 r.entry).notified r.completed

end accessors

section handlers
variable {β : Type}

/-- The token `epoc::notify_info info(ctx->msg->request_sts, ctx->msg->own_thr)`. -/
def ipc_context.info (ctx : ipc_context) : notify_info :=
  { sts := ctx.msg.request_sts, requester := ctx.msg.own_thr }

/-- Translation of `socket_host_resolver::get_host_name`. -/
def get_host_name (hd : headers) (r : host_resolver β) (w : world β) : world β :=
  let w := w.emit event.host_name
  let w := write_arg w 0 (r.host_name w.backend)
  complete w hd.error_none

/-- Translation of `socket_host_resolver::set_host_name`. -/
def set_host_name (hd : headers) (r : host_resolver β) (w : world β) : world β :=
  match get_argument_value w 0 with
  | none => complete w hd.error_argument
  | some new_name =>
    let w := w.emit (event.set_host_name new_name)
    let res := r.set_host_name w.backend new_name
    let w := { w with backend := res.2 }
    if !res.1 then
      complete w hd.error_general
    else
      complete w hd.error_none

/-- Translation of `socket_host_resolver::get_by_name`. -/
def get_by_name (hd : headers) (r : host_resolver β) (ctx : ipc_context) (w : world β) : world β :=
  match get_argument_value w 0 with
  | none => complete w hd.error_argument
  | some name =>
    match get_descriptor_argument_ptr w 1 with
    | none => complete w hd.error_argument
    | some entry =>
      let entry := { entry with name_ := name }
      let w := store_entry w 1 entry
      let info := ctx.info
      let w := w.emit (event.get_by_name entry info)
      let w := w.returned (r.get_by_name w.backend entry info)
      set_descriptor_argument_length w 1 hd.sizeof_name_entry

/-- Translation of `socket_host_resolver::get_by_address`. -/
def get_by_address (hd : headers) (r : host_resolver β) (ctx : ipc_context) (w : world β) : world β :=
  match get_argument_data_from_descriptor w 0 with
  | none => complete w hd.error_argument
  | some addr =>
    match get_descriptor_argument_ptr w 1 with
    | none => complete w hd.error_argument
    | some entry =>
      let info := ctx.info
      let w := w.emit (event.get_by_address addr entry info)
      let w := w.returned (r.get_by_address w.backend addr entry info)
      set_descriptor_argument_length w 1 hd.sizeof_name_entry

/-- Translation of `socket_host_resolver::next`. -/
def next (hd : headers) (r : host_resolver β) (ctx : ipc_context) (w : world β) : world β :=
  match get_descriptor_argument_ptr w 1 with
  | none => complete w hd.error_argument
  | some entry =>
    let info := ctx.info
    let w := w.emit (event.next entry info)
    let w := w.returned (r.next w.backend entry info)
    set_descriptor_argument_length w 1 hd.sizeof_name_entry

/-- Translation of `socket_host_resolver::cancel`. -/
def cancel (hd : headers) (r : host_resolver β) (w : world β) : world β :=
  let w := w.emit event.cancel
  let res := r.cancel w.backend
  let w := world.notified { w with backend := res.1 } res.2
  complete w hd.error_none

/-- Translation of `socket_host_resolver::close`. -/
def close (hd : headers) (self : subsession) (w : world β) : world β :=
  let w := world.emit { w with subsessions := w.subsessions.remove self.id_ } (event.remove self.id_)
  complete w hd.error_none

/-- The statement after the three `switch`es of `dispatch`: the `LOG_ERROR`. -/
def log_unimplemented (ctx : ipc_context) (w : world β) : world β :=
  w.emit (event.log_error ctx.msg.function)

/-- Translation of `socket_host_resolver::dispatch`; each `switch` is the
chain of comparisons of `ctx->msg->function` with its case labels, a matching
case runs its handler and returns, and `default: break` reaches the log. -/
def dispatch (hd : headers) (r : host_resolver β) (self : subsession) (ctx : ipc_context)
    (w : world β) : world β :=
  if self.is_oldarch then
    if ctx.msg.function = hd.socket_old_hr_get_host_name then get_host_name hd r w
    else if ctx.msg.function = hd.socket_old_hr_set_host_name then set_host_name hd r w
    else if ctx.msg.function = hd.socket_old_hr_close then close hd self w
    else if ctx.msg.function = hd.socket_old_hr_get_by_address then get_by_address hd r ctx w
    else if ctx.msg.function = hd.socket_old_hr_cancel then cancel hd r w
    else if ctx.msg.function = hd.socket_old_hr_next then next hd r ctx w
    else log_unimplemented ctx w
  else
    if ctx.symbian_version_use ≥ hd.epoc95 then
      if ctx.msg.function = hd.socket_reform_hr_get_by_name then get_by_name hd r ctx w
      else if ctx.msg.function = hd.socket_reform_hr_get_by_addr then get_by_address hd r ctx w
      else if ctx.msg.function = hd.socket_reform_hr_get_host_name then get_host_name hd r w
      else if ctx.msg.function = hd.socket_reform_hr_close then close hd self w
      else if ctx.msg.function = hd.socket_reform_hr_next then next hd r ctx w
      else log_unimplemented ctx w
    else
      if ctx.msg.function = hd.socket_hr_get_by_name then get_by_name hd r ctx w
      else if ctx.msg.function = hd.socket_hr_close then close hd self w
      else log_unimplemented ctx w

/-- The member functions of `socket_host_resolver` that `dispatch` can call. -/
inductive handler where
  | get_host_name | set_host_name | get_by_name | get_by_address | next | cancel | close
deriving DecidableEq, Repr

/-- Runs the named member function. -/
def run_handler (h : handler) (hd : headers) (r : host_resolver β) (self : subsession)
    (ctx : ipc_context) (w : world β) : world β :=
  match h with
  | .get_host_name => get_host_name hd r w
  | .set_host_name => set_host_name hd r w
  | .get_by_name => get_by_name hd r ctx w
  | .get_by_address => get_by_address hd r ctx w
  | .next => next hd r ctx w
  | .cancel => cancel hd r w
  | .close => close hd self w

/-- The protocol generation `dispatch` selects: its outer two conditions. -/
inductive generation where
  | legacy | reformed | baseline
deriving DecidableEq, Repr

/-- The generation chosen by `parent_->is_oldarch()` and the comparison of
`get_symbian_version_use()` with `epocver::epoc95`. -/
def generation_of (hd : headers) (self : subsession) (ctx : ipc_context) : generation :=
  if self.is_oldarch then .legacy
  else if ctx.symbian_version_use ≥ hd.epoc95 then .reformed
  else .baseline

/-- The case labels of the `switch` of a generation, each with the member
function its case calls, in source order. -/
def opcode_table (hd : headers) : generation → List (Int × handler)
  | .legacy =>
    [(hd.socket_old_hr_get_host_name, .get_host_name), (hd.socket_old_hr_set_host_name, .set_host_name),
     (hd.socket_old_hr_close, .close), (hd.socket_old_hr_get_by_address, .get_by_address),
     (hd.socket_old_hr_cancel, .cancel), (hd.socket_old_hr_next, .next)]
  | .reformed =>
    [(hd.socket_reform_hr_get_by_name, .get_by_name), (hd.socket_reform_hr_get_by_addr, .get_by_address),
     (hd.socket_reform_hr_get_host_name, .get_host_name), (hd.socket_reform_hr_close, .close),
     (hd.socket_reform_hr_next, .next)]
  | .baseline =>
    [(hd.socket_hr_get_by_name, .get_by_name), (hd.socket_hr_close, .close)]

/-- The member function `dispatch` calls for an opcode: the first case of the
generation's `switch` whose label equals it, `none` for `default`. -/
def dispatch_target (hd : headers) (self : subsession) (ctx : ipc_context) : Option handler :=
  ((opcode_table hd (generation_of hd self ctx)).find? (fun c => c.1 == ctx.msg.function)).map Prod.snd

/-- The opcode is a case label of the generation's `switch`. -/
def in_table (hd : headers) (g : generation) (function : Int) : Prop :=
  function ∈ (opcode_table hd g).map Prod.fst

instance (hd : headers) (g : generation) (function : Int) : Decidable (in_table hd g function) := by
  unfold in_table; infer_instance

end handlers

section observations

/-- The codes passed to `ctx->complete` by the handler itself, in order. -/
def ctx_completions (tr : List event) : List Int :=
  tr.filterMap (fun e => match e with
    | event.complete c => some c
    | _ => none)

/-- The tokens handed to the backend (with a `name_entry *`), in order. -/
def tokens_handed (tr : List event) : List notify_info :=
  tr.filterMap (fun e => match e with
    | event.get_by_name _ i => some i
    | event.get_by_address _ _ i => some i
    | event.next _ i => some i
    | _ => none)

/-- The calls made on the backend, in order. -/
def backend_calls (tr : List event) : List event :=
  tr.filter (fun e => match e with
    | event.host_name => true
    | event.set_host_name _ => true
    | event.get_by_name _ _ => true
    | event.get_by_address _ _ _ => true
    | event.next _ _ => true
    | event.cancel => true
    | _ => false)

/-- The lengths written with `set_descriptor_argument_length`, with their slot. -/
def length_writes (tr : List event) : List (Nat × Nat) :=
  tr.filterMap (fun e => match e with
    | event.set_descriptor_argument_length i n => some (i, n)
    | _ => none)

/-- Every code delivered to the request of `info`, in order: by the handler
through `ctx->complete`, or by the backend on a token equal to `info`. -/
def delivered (info : notify_info) (tr : List event) : List Int :=
  tr.filterMap (fun e => match e with
    | event.complete c => some c
    | event.notify_complete i c => if i = info then some c else none
    | _ => none)

/-- The handler went from `w` to `w1` by nothing but one `ctx->complete` with
`error_argument`: no backend call, no length written, slots and backend as
they were. -/
def rejected {β : Type} (hd : headers) (w w1 : world β) : Prop :=
  w1 = { w with trace := w.trace ++ [event.complete hd.error_argument] } ∧
  ctx_completions w1.trace = ctx_completions w.trace ++ [hd.error_argument] ∧
  backend_calls w1.trace = backend_calls w.trace ∧
  tokens_handed w1.trace = tokens_handed w.trace ∧
  length_writes w1.trace = length_writes w.trace ∧
  w1.args = w.args ∧ w1.backend = w.backend

/-- The events one call of `dispatch` adds, started on an empty trace. -/
def dispatch_events {β : Type} (hd : headers) (r : host_resolver β) (self : subsession)
    (ctx : ipc_context) (w : world β) : List event :=
  (dispatch hd r self ctx { w with trace := [] }).trace

/-- A backend that works synchronously: each operation taking a token fulfils
exactly that token, once, before it returns, and `cancel`, which then finds
nothing outstanding, fulfils nothing. -/
def synchronous {β : Type} (r : host_resolver β) : Prop :=
  (∀ b e i, (r.get_by_name b e i).completed.map Prod.fst = [i]) ∧
  (∀ b a e i, (r.get_by_address b a e i).completed.map Prod.fst = [i]) ∧
  (∀ b e i, (r.next b e i).completed.map Prod.fst = [i]) ∧
  (∀ b, (r.cancel b).2 = [])

end observations

section samples

/-- Sample values for the enumerators, the Symbian error codes and the record
size, used to evaluate the definitions on concrete requests. -/
def sample_headers : headers :=
  { socket_old_hr_get_host_name := 30, socket_old_hr_set_host_name := 31, socket_old_hr_close := 32,
    socket_old_hr_get_by_address := 33, socket_old_hr_cancel := 34, socket_old_hr_next := 35,
    socket_reform_hr_get_by_name := 41, socket_reform_hr_get_by_addr := 43,
    socket_reform_hr_get_host_name := 44, socket_reform_hr_close := 47, socket_reform_hr_next := 42,
    socket_hr_get_by_name := 41, socket_hr_close := 47,
    epoc95 := 8, error_none := 0, error_general := -2, error_argument := -6, error_eof := -25,
    sizeof_name_entry := 548 }

/-- An entry with every field empty. -/
def empty_entry : name_entry :=
  { name_ := [], addr_ := { bytes := [] }, service_ := [], flags_ := 0 }

/-- A sample backend without state: the host name is "ab", setting the host
name succeeds for a non-empty name only, a lookup writes the address
`[127, 0, 0, 1]` (by name) or the name "ab" (by address) into the entry and
fulfils the token with `error_none`, and `next` is the base-class body. -/
def sample_resolver : host_resolver Unit :=
  { host_name := fun _ => [97, 98],
    set_host_name := fun _ n => (!n.isEmpty, ()),
    get_by_name := fun _ e i =>
      { backend := (), entry := { e with addr_ := { bytes := [127, 0, 0, 1] } },
        completed := [(i, sample_headers.error_none)] },
    get_by_address := fun _ a e i =>
      { backend := (), entry := { e with name_ := [97, 98], addr_ := a },
        completed := [(i, sample_headers.error_none)] },
    next := host_resolver.next_default sample_headers,
    cancel := fun _ => ((), []) }

/-- A slot holding nothing. -/
def empty_arg : ipc_arg := { text := none, address := none, des := none }

/-- A slot holding an inbound text. -/
def text_arg (t : u16string) : ipc_arg := { text := some t, address := none, des := none }

/-- A slot holding an inbound address value. -/
def address_arg (a : saddress) : ipc_arg := { text := none, address := some a, des := none }

/-- A slot holding an outbound buffer of the given capacity, zero-filled. -/
def buffer_arg (capacity : Nat) : ipc_arg :=
  { text := none, address := none, des := some { max_length := capacity, length := 0, entry := empty_entry } }

/-- A world with the given four slots, a table holding this subsession under
handle 5 and another one under handle 6, and an empty trace. -/
def sample_world (a0 a1 : ipc_arg) : world Unit :=
  { args := [a0, a1, empty_arg, empty_arg], backend := (), subsessions := [(5, 100), (6, 101)], trace := [] }

/-- A request with the given opcode, status address 4096 and thread 7, under
the given OS version. -/
def sample_context (function : Int) (version : Nat) : ipc_context :=
  { msg := { function := function, request_sts := 4096, own_thr := 7 }, symbian_version_use := version }

end samples

end eka2l1.epoc.socket

namespace eka2l1.drivers.camera

/-- Translation of `collection_null::count`. -/
def collection_null.count : Nat := 0

/-- Translation of `collection_null::make_camera`: a null `unique_ptr` for
every index; `camera_instance` stands for the class `instance`. -/
def collection_null.make_camera {camera_instance : Type} (_camera_index : Nat) :
    Option camera_instance :=
  none

end eka2l1.drivers.camera

namespace eka2l1

/-!
Embedding of `common/src/path.cpp`. A `std::basic_string<T>` is the list of
its code units, each a natural number below `2 ^ 8` for `char` and below
`2 ^ 16` for `char16_t`; the templates are translated once and both overloads
instantiate them. Reading `path[i]` and `substr` are partial: they yield
`none` where C++ leaves the behaviour undefined or throws.
-/

/-- A `std::basic_string<T>`: its code units in order. -/
abbrev basic_string := List Nat

/-- Every code unit fits the 8-bit `char` of a `std::string`. -/
def is_string (s : basic_string) : Prop := ∀ c ∈ s, c < 256

/-- Every code unit fits the `char16_t` of a `std::u16string`. -/
def is_u16string (s : basic_string) : Prop := ∀ c ∈ s, c < 65536

instance (s : basic_string) : Decidable (is_string s) := by
  unfold is_string; infer_instance

instance (s : basic_string) : Decidable (is_u16string s) := by
  unfold is_u16string; infer_instance

/-- The number of values of `std::size_t` (64 bits). -/
def size_modulus : Nat := 18446744073709551616

/-- Subtraction of two `std::size_t` values, which wraps around. -/
def size_sub (a b : Nat) : Nat := (a % size_modulus + size_modulus - b % size_modulus) % size_modulus

/-- Conversion of a `std::size_t` to `int64_t`. -/
def to_int64 (n : Nat) : Int :=
  if n % size_modulus < 9223372036854775808 then (n % size_modulus : Nat)
  else ((n % size_modulus : Nat) : Int) - 18446744073709551616

/-- The cast `static_cast<char>(c)`, which keeps the low 8 bits. -/
def static_cast_char (c : Nat) : Nat := c % 256

/-- Reading `s[i]`: the code unit at `i`, the terminating NUL at `i = size()`,
and undefined beyond. -/
def char_at (s : basic_string) (i : Nat) : Option Nat :=
  if i < s.length then s[i]?
  else if i = s.length then some 0
  else none

/-- The call `s.substr(pos, count)`, which throws for `pos > size()`. -/
def substr (s : basic_string) (pos count : Nat) : Option basic_string :=
  if pos > s.length then none else some ((s.drop pos).take count)

/-- The call `s.substr(pos)`, which throws for `pos > size()`. -/
def substr_from (s : basic_string) (pos : Nat) : Option basic_string :=
  if pos > s.length then none else some (s.drop pos)

/-- The call `s.find_last_of(ch)`; `none` is `npos`. -/
def find_last_of : basic_string → Nat → Option Nat
  | [], _ => none
  | c :: t, ch =>
    match find_last_of t ch with
    | some i => some (i + 1)
    | none => if c = ch then some 0 else none

/-- Scans `t`, whose first unit has index `i`, for the first `ch`. -/
def find_from (ch : Nat) : basic_string → Nat → Option Nat
  | [], _ => none
  | c :: t, i => if c = ch then some i else find_from ch t (i + 1)

/-- The call `s.find_first_of(ch, pos)`; `none` is `npos`. -/
def find_first_of (s : basic_string) (ch pos : Nat) : Option Nat :=
  find_from ch (s.drop pos) pos

/-- Translation of `get_separator`; `win32` is `EKA2L1_PLATFORM(WIN32)`. -/
def get_separator (win32 : Bool) (symbian_use : Bool) : Nat :=
  if symbian_use then 92
  else if win32 then 92 else 47

/-- Translation of `get_separator_16`. -/
def get_separator_16 (win32 : Bool) (symbian_use : Bool) : Nat :=
  if symbian_use then 92
  else if win32 then 92 else 47

/-- Translation of both overloads of `is_separator`. -/
def is_separator (sep : Nat) : Bool :=
  sep == 47 || sep == 92

/-- Translation of `path_extension_impl`. -/
def path_extension_impl (path : basic_string) : Option basic_string :=
  match find_last_of path 46 with
  | none => some []
  | some last_dot_pos => substr path last_dot_pos (size_sub path.length last_dot_pos)

/-- Translation of `replace_extension_impl`. -/
def replace_extension_impl (path new_ext : basic_string) : Option basic_string :=
  match find_last_of path 46 with
  | none => some (path ++ new_ext)
  | some last_dot_pos => (substr path 0 last_dot_pos).map (fun head => head ++ new_ext)

/-- Both overloads of `path_extension`. -/
def path_extension (path : basic_string) : Option basic_string :=
  path_extension_impl path

/-- Both overloads of `replace_extension`. -/
def replace_extension (path new_ext : basic_string) : Option basic_string :=
  replace_extension_impl path new_ext

/-- The local `has_drive` of the three root functions:
`(path.length() >= 2) && (path[1] == ':')`. -/
def has_drive (path : basic_string) : Option Bool :=
  if path.length ≥ 2 then (char_at path 1).map (fun c => c == 58) else some false

/-- The local `has_net` of `root_path_impl`:
`is_separator(path[0]) && (path[0] == path[1])`. -/
def has_net (path : basic_string) : Option Bool :=
  (char_at path 0).bind (fun c0 =>
    if is_separator c0 then
      (char_at path 0).bind (fun a => (char_at path 1).map (fun b => a == b))
    else some false)

/-- The local `has_net` of `root_name_impl` and `root_dir_impl`, which ends in
`&& !symbian_use`. -/
def has_net_host (path : basic_string) (symbian_use : Bool) : Option Bool :=
  (has_net path).map (fun b => b && !symbian_use)

/-- Translation of `root_name_impl`. -/
def root_name_impl (path : basic_string) (symbian_use : Bool) (separator_func : Bool → Nat) :
    Option basic_string :=
  (has_drive path).bind (fun drive =>
  (has_net_host path symbian_use).bind (fun net =>
    if drive then substr path 0 2
    else if net then
      match find_first_of path (separator_func symbian_use) 2 with
      | none => some []
      | some res => substr path 0 res
    else some []))

/-- Translation of `root_dir_impl`; its network branch calls `get_separator`
itself, so the platform flag is a parameter. -/
def root_dir_impl (win32 : Bool) (path : basic_string) (symbian_use : Bool)
    (_separator_func : Bool → Nat) : Option basic_string :=
  (has_drive path).bind (fun drive =>
  (has_net_host path symbian_use).bind (fun net =>
    if drive then
      if path.length > 2 then
        (char_at path 2).bind (fun c => if is_separator c then substr path 2 1 else some [])
      else some []
    else if net then
      match find_first_of path (get_separator win32 symbian_use) 2 with
      | none => some []
      | some res => substr path res 1
    else
      if path.length > 1 then
        (char_at path 0).bind (fun c =>
          if is_separator c && !symbian_use then substr path 0 1 else some [])
      else some []))

/-- Translation of `root_path_impl`. -/
def root_path_impl (path : basic_string) (symbian_use : Bool) (separator_func : Bool → Nat) :
    Option basic_string :=
  (has_drive path).bind (fun drive =>
  (has_net path).bind (fun net =>
    if drive then
      if path.length > 2 then
        (char_at path 2).bind (fun c => if is_separator c then substr path 0 3 else substr path 0 2)
      else substr path 0 2
    else if net then
      match find_first_of path (separator_func symbian_use) 2 with
      | none => some []
      | some res => substr path 0 res
    else
      (char_at path 0).bind (fun c => if is_separator c then substr path 0 1 else some [])))

/-- The overload `root_name(std::string, bool)`. -/
def root_name (win32 : Bool) (path : basic_string) (symbian_use : Bool) : Option basic_string :=
  root_name_impl path symbian_use (get_separator win32)

/-- The overload `root_name(std::u16string, bool)`. -/
def root_name_16 (win32 : Bool) (path : basic_string) (symbian_use : Bool) : Option basic_string :=
  root_name_impl path symbian_use (get_separator_16 win32)

/-- The overload `root_dir(std::string, bool)`. -/
def root_dir (win32 : Bool) (path : basic_string) (symbian_use : Bool) : Option basic_string :=
  root_dir_impl win32 path symbian_use (get_separator win32)

/-- The overload `root_dir(std::u16string, bool)`. -/
def root_dir_16 (win32 : Bool) (path : basic_string) (symbian_use : Bool) : Option basic_string :=
  root_dir_impl win32 path symbian_use (get_separator_16 win32)

/-- The overload `root_path(std::string, bool)`. -/
def root_path (win32 : Bool) (path : basic_string) (symbian_use : Bool) : Option basic_string :=
  root_path_impl path symbian_use (get_separator win32)

/-- The overload `root_path(std::u16string, bool)`. -/
def root_path_16 (win32 : Bool) (path : basic_string) (symbian_use : Bool) : Option basic_string :=
  root_path_impl path symbian_use (get_separator_16 win32)

/-- Translation of `relative_path_impl`; the overload of `root_path` that the
template argument selects is a parameter. -/
def relative_path_impl (root_path_of : basic_string → Bool → Option basic_string)
    (str : basic_string) (symbian_use : Bool) : Option basic_string :=
  (root_path_of str symbian_use).bind (fun root => substr_from str root.length)

/-- The overload `relative_path(const std::string &, bool)`. -/
def relative_path (win32 : Bool) (str : basic_string) (symbian_use : Bool) : Option basic_string :=
  relative_path_impl (root_path win32) str symbian_use

/-- The overload `relative_path(const std::u16string &, bool)`. -/
def relative_path_16 (win32 : Bool) (str : basic_string) (symbian_use : Bool) :
    Option basic_string :=
  relative_path_impl (root_path_16 win32) str symbian_use

/-- The `for` loop of `filename_impl` from index `i` down to `0`: it stops at
a separator or at a unit whose cast to `char` is the colon, and otherwise
puts `path[i]` in front of `fn`. -/
def filename_loop (path : basic_string) : Nat → basic_string → Option basic_string
  | 0, fn =>
    (char_at path 0).map (fun c =>
      if is_separator c || static_cast_char c == 58 then fn else c :: fn)
  | i + 1, fn =>
    (char_at path (i + 1)).bind (fun c =>
      if is_separator c || static_cast_char c == 58 then some fn
      else filename_loop path i (c :: fn))

/-- The `while` loop of `filename_impl`: it pops units off the back while the
cast of the last one to `char` is NUL. -/
def pop_nul (fn : basic_string) : basic_string :=
  fn.rdropWhile (fun c => static_cast_char c == 0)

/-- Translation of `filename_impl`. -/
def filename_impl (path : basic_string) (_symbian_use : Bool) (_separator_func : Bool → Nat) :
    Option basic_string :=
  if path.length < 1 then some []
  else
    (char_at path (size_sub path.length 1)).bind (fun last =>
      if is_separator last then some []
      else
        (if to_int64 path.length ≥ 0 then filename_loop path (to_int64 path.length).toNat []
         else some []).map pop_nul)

/-- The overload `filename(std::string, bool)`. -/
def filename (win32 : Bool) (path : basic_string) (symbian_use : Bool) : Option basic_string :=
  filename_impl path symbian_use (get_separator win32)

/-- The overload `filename(std::u16string, bool)`, which also passes
`get_separator`. -/
def filename_16 (win32 : Bool) (path : basic_string) (symbian_use : Bool) : Option basic_string :=
  filename_impl path symbian_use (get_separator win32)

/-- Translation of `file_directory_impl`; the overload of `filename` that the
template argument selects is a parameter. -/
def file_directory_impl (filename_of : basic_string → Bool → Option basic_string)
    (path : basic_string) (symbian_use : Bool) : Option basic_string :=
  (filename_of path symbian_use).bind (fun fn =>
    if fn = [] then some path
    else substr path 0 (size_sub path.length fn.length))

/-- The overload `file_directory(std::string, bool)` outside the Android
content-URI branch. -/
def file_directory (win32 : Bool) (path : basic_string) (symbian_use : Bool) :
    Option basic_string :=
  file_directory_impl (filename win32) path symbian_use

/-- The overload `file_directory(std::u16string, bool)`. -/
def file_directory_16 (win32 : Bool) (path : basic_string) (symbian_use : Bool) :
    Option basic_string :=
  file_directory_impl (filename_16 win32) path symbian_use

/-- The units the `for` loop of `filename_impl` keeps: those that are no
separator and whose cast to `char` is not the colon. -/
def loop_unit (c : Nat) : Bool :=
  !(is_separator c || static_cast_char c == 58)

/-- A unit that is neither a separator nor the colon. -/
def plain_unit (c : Nat) : Bool :=
  !(is_separator c || c == 58)

/-- Following the words of the claim on `filename`: the longest suffix of a
path that contains neither a separator nor the colon. -/
def longest_plain_suffix (p : basic_string) : basic_string :=
  p.rtakeWhile plain_unit

/-- Scans `t`, whose first unit has index `i`, for the first unit other than
`ch`. -/
def find_not_from (ch : Nat) : basic_string → Nat → Option Nat
  | [], _ => none
  | c :: t, i => if c = ch then find_not_from ch t (i + 1) else some i

/-- The call `s.find_first_not_of(ch)`; `none` is `npos`. -/
def find_first_not_of (s : basic_string) (ch : Nat) : Option Nat :=
  find_not_from ch s 0

/-- Modelled from the spec: `transform_separators` (declared in `path.h`), the
separator-normalised form of a path, in which every separator unit is
`separator_func(symbian_use)` and every other unit is kept. -/
def transform_separators (path : basic_string) (symbian_use : Bool)
    (separator_func : Bool → Nat) : basic_string :=
  path.map (fun c => if is_separator c then separator_func symbian_use else c)

/-- Translation of `add_path_impl`. The normaliser it calls on every return
but the first is a parameter; `merge = ...` followed by the final
`return transform_separators(merge, ...)` is written out in each branch. -/
def add_path_impl (transform : basic_string → Bool → (Bool → Nat) → basic_string)
    (path1 path2 : basic_string) (symbian_use : Bool) (separator_func : Bool → Nat) :
    Option basic_string :=
  if path1.length = 0 ∧ path2.length = 0 then some []
  else if path1.length = 0 then some (transform path2 symbian_use separator_func)
  else if path2.length = 0 then some (transform path1 symbian_use separator_func)
  else
    (char_at path1 (size_sub path1.length 1)).bind (fun last =>
    (char_at path2 0).bind (fun first =>
      if is_separator last && is_separator first then
        (char_at path2 0).bind (fun ch =>
          match find_first_not_of path2 ch with
          | none => some (transform path1 symbian_use separator_func)
          | some pos_sub =>
            (substr_from path2 pos_sub).map (fun nstring =>
              transform (path1 ++ nstring) symbian_use separator_func))
      else if !is_separator last && !is_separator first then
        some (transform (path1 ++ ([separator_func symbian_use] ++ path2))
          symbian_use separator_func)
      else some (transform (path1 ++ path2) symbian_use separator_func)))

/-- The overload `add_path(const std::string &, const std::string &, bool)`
outside the Android content-URI branch. -/
def add_path (win32 : Bool) (path1 path2 : basic_string) (symbian_use : Bool) :
    Option basic_string :=
  add_path_impl transform_separators path1 path2 symbian_use (get_separator win32)

/-- The overload of `add_path` for `std::u16string`, outside the Android
content-URI branch. -/
def add_path_16 (win32 : Bool) (path1 path2 : basic_string) (symbian_use : Bool) :
    Option basic_string :=
  add_path_impl transform_separators path1 path2 symbian_use (get_separator_16 win32)

/-- Following the words of the claim on `add_path`: what stands between the
two paths, nothing if `path1` ends with a separator and the single unit `sep`
otherwise. -/
def junction (path1 : basic_string) (sep : Nat) : basic_string :=
  if path1.getLast?.map is_separator = some true then [] else [sep]

/-- Following the words of the claim on `add_path`: the separators that stand
at the junction of `path1 ++ s ++ path2`, which are the separator units
directly in front of `path2`, `s` being `junction path1 sep`. -/
def junction_run (path1 : basic_string) (sep : Nat) : basic_string :=
  (path1 ++ junction path1 sep).rtakeWhile is_separator

end eka2l1

namespace eka2l1.epoc.socket

section routing
variable {β : Type}

theorem find_label_cons (f l : Int) (h : handler) (t : List (Int × handler)) :
    ((l, h) :: t).find? (fun c => c.1 == f) =
      if f = l then some (l, h) else t.find? (fun c => c.1 == f) := by
  by_cases e : f = l
  · simp [List.find?, e]
  · have : (l == f) = false := by simpa using fun h' => e h'.symm
    simp [List.find?, this, e]

/-- The target written as the chain of comparisons of the `switch`. -/
theorem dispatch_target_eq (hd : headers) (self : subsession) (ctx : ipc_context) :
    dispatch_target hd self ctx =
      if self.is_oldarch then
        if ctx.msg.function = hd.socket_old_hr_get_host_name then some handler.get_host_name
        else if ctx.msg.function = hd.socket_old_hr_set_host_name then some handler.set_host_name
        else if ctx.msg.function = hd.socket_old_hr_close then some handler.close
        else if ctx.msg.function = hd.socket_old_hr_get_by_address then some handler.get_by_address
        else if ctx.msg.function = hd.socket_old_hr_cancel then some handler.cancel
        else if ctx.msg.function = hd.socket_old_hr_next then some handler.next
        else none
      else if ctx.symbian_version_use ≥ hd.epoc95 then
        if ctx.msg.function = hd.socket_reform_hr_get_by_name then some handler.get_by_name
        else if ctx.msg.function = hd.socket_reform_hr_get_by_addr then some handler.get_by_address
        else if ctx.msg.function = hd.socket_reform_hr_get_host_name then some handler.get_host_name
        else if ctx.msg.function = hd.socket_reform_hr_close then some handler.close
        else if ctx.msg.function = hd.socket_reform_hr_next then some handler.next
        else none
      else
        if ctx.msg.function = hd.socket_hr_get_by_name then some handler.get_by_name
        else if ctx.msg.function = hd.socket_hr_close then some handler.close
        else none := by
  unfold dispatch_target generation_of
  cases self.is_oldarch
  · by_cases h2 : ctx.symbian_version_use ≥ hd.epoc95
    · rw [if_neg Bool.false_ne_true, if_pos h2, if_neg Bool.false_ne_true, if_pos h2]
      simp only [opcode_table, find_label_cons, List.find?_nil]
      split_ifs <;> rfl
    · rw [if_neg Bool.false_ne_true, if_neg h2, if_neg Bool.false_ne_true, if_neg h2]
      simp only [opcode_table, find_label_cons, List.find?_nil]
      split_ifs <;> rfl
  · rw [if_pos rfl, if_pos rfl]
    simp only [opcode_table, find_label_cons, List.find?_nil]
    split_ifs <;> rfl

/-- The nested conditionals of `dispatch` call the member function that
`dispatch_target` names, and log when it names none. -/
theorem dispatch_eq_target (hd : headers) (r : host_resolver β) (self : subsession)
    (ctx : ipc_context) (w : world β) :
    dispatch hd r self ctx w =
      match dispatch_target hd self ctx with
      | some h => run_handler h hd r self ctx w
      | none => log_unimplemented ctx w := by
  rw [dispatch_target_eq]
  unfold dispatch
  split_ifs <;> simp [run_handler]

/-- An opcode outside the table of the generation has no target. -/
theorem dispatch_target_none_iff (hd : headers) (self : subsession) (ctx : ipc_context) :
    dispatch_target hd self ctx = none ↔
      ¬ in_table hd (generation_of hd self ctx) ctx.msg.function := by
  unfold dispatch_target in_table
  rw [Option.map_eq_none', List.find?_eq_none]
  simp only [List.mem_map, not_exists, not_and, beq_iff_eq, Prod.forall]

end routing

section traces
variable {β : Type}

theorem get_host_name_trace (hd : headers) (r : host_resolver β) (w : world β) :
    (get_host_name hd r w).trace =
      w.trace ++ [event.host_name, event.write_arg 0 (r.host_name w.backend),
        event.complete hd.error_none] := by
  simp [get_host_name, complete, write_arg, world.emit]

theorem set_host_name_trace (hd : headers) (r : host_resolver β) (w : world β) :
    (set_host_name hd r w).trace = w.trace ++
      match get_argument_value w 0 with
      | none => [event.complete hd.error_argument]
      | some n => [event.set_host_name n,
          event.complete (if (r.set_host_name w.backend n).1 then hd.error_none else hd.error_general)] := by
  unfold set_host_name
  cases h0 : get_argument_value w 0 with
  | none => simp [complete, world.emit]
  | some n =>
    cases hb : (r.set_host_name w.backend n).1 <;>
      simp [complete, world.emit, hb]

theorem get_by_name_trace (hd : headers) (r : host_resolver β) (ctx : ipc_context) (w : world β) :
    (get_by_name hd r ctx w).trace = w.trace ++
      match get_argument_value w 0, get_descriptor_argument_ptr w 1 with
      | some name, some entry =>
        event.get_by_name { entry with name_ := name } ctx.info ::
          (notifications (r.get_by_name w.backend { entry with name_ := name } ctx.info).completed ++
            [event.set_descriptor_argument_length 1 hd.sizeof_name_entry])
      | _, _ => [event.complete hd.error_argument] := by
  unfold get_by_name
  cases h0 : get_argument_value w 0 with
  | none => simp [complete, world.emit]
  | some n =>
    cases h1 : get_descriptor_argument_ptr w 1 with
    | none => simp [complete, world.emit]
    | some e =>
      simp [world.emit, world.returned, world.notified, store_entry,
        set_descriptor_argument_length, notifications]

theorem get_by_address_trace (hd : headers) (r : host_resolver β) (ctx : ipc_context) (w : world β) :
    (get_by_address hd r ctx w).trace = w.trace ++
      match get_argument_data_from_descriptor w 0, get_descriptor_argument_ptr w 1 with
      | some addr, some entry =>
        event.get_by_address addr entry ctx.info ::
          (notifications (r.get_by_address w.backend addr entry ctx.info).completed ++
            [event.set_descriptor_argument_length 1 hd.sizeof_name_entry])
      | _, _ => [event.complete hd.error_argument] := by
  unfold get_by_address
  cases h0 : get_argument_data_from_descriptor w 0 with
  | none => simp [complete, world.emit]
  | some a =>
    cases h1 : get_descriptor_argument_ptr w 1 with
    | none => simp [complete, world.emit]
    | some e =>
      simp [world.emit, world.returned, world.notified, store_entry,
        set_descriptor_argument_length, notifications]

theorem next_trace (hd : headers) (r : host_resolver β) (ctx : ipc_context) (w : world β) :
    (next hd r ctx w).trace = w.trace ++
      match get_descriptor_argument_ptr w 1 with
      | some entry =>
        event.next entry ctx.info ::
          (notifications (r.next w.backend entry ctx.info).completed ++
            [event.set_descriptor_argument_length 1 hd.sizeof_name_entry])
      | none => [event.complete hd.error_argument] := by
  unfold next
  cases h1 : get_descriptor_argument_ptr w 1 with
  | none => simp [complete, world.emit]
  | some e =>
    simp [world.emit, world.returned, world.notified, store_entry,
      set_descriptor_argument_length, notifications]

theorem cancel_trace (hd : headers) (r : host_resolver β) (w : world β) :
    (cancel hd r w).trace =
      w.trace ++ event.cancel :: (notifications (r.cancel w.backend).2 ++
        [event.complete hd.error_none]) := by
  simp [cancel, complete, world.emit, world.notified, notifications]

theorem close_trace (hd : headers) (self : subsession) (w : world β) :
    (close hd self w).trace =
      w.trace ++ [event.remove self.id_, event.complete hd.error_none] := by
  simp [close, complete, world.emit]

theorem ctx_completions_notifications (cs : List (notify_info × Int)) :
    ctx_completions (notifications cs) = [] := by
  induction cs with
  | nil => rfl
  | cons c t ih => exact ih

theorem tokens_handed_notifications (cs : List (notify_info × Int)) :
    tokens_handed (notifications cs) = [] := by
  induction cs with
  | nil => rfl
  | cons c t ih => exact ih

theorem backend_calls_notifications (cs : List (notify_info × Int)) :
    backend_calls (notifications cs) = [] := by
  induction cs with
  | nil => rfl
  | cons c t ih => exact ih

theorem length_writes_notifications (cs : List (notify_info × Int)) :
    length_writes (notifications cs) = [] := by
  induction cs with
  | nil => rfl
  | cons c t ih => exact ih

theorem ctx_completions_append (a b : List event) :
    ctx_completions (a ++ b) = ctx_completions a ++ ctx_completions b := by
  simp [ctx_completions]

theorem tokens_handed_append (a b : List event) :
    tokens_handed (a ++ b) = tokens_handed a ++ tokens_handed b := by
  simp [tokens_handed]

theorem backend_calls_append (a b : List event) :
    backend_calls (a ++ b) = backend_calls a ++ backend_calls b := by
  simp [backend_calls]

theorem length_writes_append (a b : List event) :
    length_writes (a ++ b) = length_writes a ++ length_writes b := by
  simp [length_writes]

theorem delivered_append (i : notify_info) (a b : List event) :
    delivered i (a ++ b) = delivered i a ++ delivered i b := by
  simp [delivered]

/-- The shape of a trace around a backend call: the call, what the backend
fulfilled during it, and what the handler did afterwards. -/
theorem ctx_completions_call (e : event) (cs : List (notify_info × Int)) (t : List event) :
    ctx_completions (e :: (notifications cs ++ t)) = ctx_completions [e] ++ ctx_completions t := by
  rw [← List.singleton_append, ctx_completions_append, ctx_completions_append,
    ctx_completions_notifications, List.nil_append]

theorem tokens_handed_call (e : event) (cs : List (notify_info × Int)) (t : List event) :
    tokens_handed (e :: (notifications cs ++ t)) = tokens_handed [e] ++ tokens_handed t := by
  rw [← List.singleton_append, tokens_handed_append, tokens_handed_append,
    tokens_handed_notifications, List.nil_append]

theorem backend_calls_call (e : event) (cs : List (notify_info × Int)) (t : List event) :
    backend_calls (e :: (notifications cs ++ t)) = backend_calls [e] ++ backend_calls t := by
  rw [← List.singleton_append, backend_calls_append, backend_calls_append,
    backend_calls_notifications, List.nil_append]

theorem length_writes_call (e : event) (cs : List (notify_info × Int)) (t : List event) :
    length_writes (e :: (notifications cs ++ t)) = length_writes [e] ++ length_writes t := by
  rw [← List.singleton_append, length_writes_append, length_writes_append,
    length_writes_notifications, List.nil_append]

theorem delivered_call (i : notify_info) (e : event) (cs : List (notify_info × Int))
    (t : List event) :
    delivered i (e :: (notifications cs ++ t)) =
      delivered i [e] ++ (delivered i (notifications cs) ++ delivered i t) := by
  rw [← List.singleton_append, delivered_append, delivered_append]

/-- A backend call that fulfils exactly the token `i`, once, delivers exactly
one code to the request of `i`. -/
theorem delivered_notifications_once (i : notify_info) (cs : List (notify_info × Int))
    (h : cs.map Prod.fst = [i]) :
    ∃ c, cs = [(i, c)] ∧ delivered i (notifications cs) = [c] := by
  match cs, h with
  | [(j, c)], h =>
    have hj : j = i := by simpa using h
    subst hj
    exact ⟨c, rfl, by simp [delivered, notifications]⟩

theorem descriptor_of_modify (w : world β) (f : descriptor → descriptor) (idx : Nat)
    (args : List ipc_arg) (b : β) (t : subsession_table) (tr : List event)
    (h : args = w.args.modify (fun a => a.with_des f) idx) :
    descriptor_of { args := args, backend := b, subsessions := t, trace := tr } idx =
      (descriptor_of w idx).map f := by
  subst h
  unfold descriptor_of
  simp only [List.getElem?_modify]
  cases w.args[idx]? with
  | none => rfl
  | some a => simp [ipc_arg.with_des]

theorem descriptor_of_store_entry (w : world β) (idx : Nat) (e : name_entry) :
    descriptor_of (store_entry w idx e) idx =
      (descriptor_of w idx).map (fun d => { d with entry := e }) :=
  descriptor_of_modify w _ idx _ _ _ _ rfl

theorem descriptor_of_set_length (w : world β) (idx : Nat) (n : Nat) :
    descriptor_of (set_descriptor_argument_length w idx n) idx =
      (descriptor_of w idx).map (fun d => { d with length := n }) :=
  descriptor_of_modify w _ idx _ _ _ _ rfl

theorem descriptor_of_returned (w : world β) (rep : reply β) :
    descriptor_of (w.returned rep) 1 =
      (descriptor_of w 1).map (fun d => { d with entry := rep.entry }) :=
  descriptor_of_modify w _ 1 _ _ _ _ rfl

/-- After a lookup that passed validation, slot 1 holds the entry as the
backend left it and the length field `sizeof(name_entry)`. -/
theorem descriptor_of_get_by_address (hd : headers) (r : host_resolver β) (ctx : ipc_context)
    (w : world β) (addr : saddress) (entry : name_entry)
    (h0 : get_argument_data_from_descriptor w 0 = some addr)
    (h1 : get_descriptor_argument_ptr w 1 = some entry) :
    descriptor_of (get_by_address hd r ctx w) 1 =
      (descriptor_of w 1).map (fun d =>
        { d with entry := (r.get_by_address w.backend addr entry ctx.info).entry,
                 length := hd.sizeof_name_entry }) := by
  unfold get_by_address
  simp only [h0, h1]
  rw [descriptor_of_set_length, descriptor_of_returned]
  have : descriptor_of (w.emit (event.get_by_address addr entry ctx.info)) 1 = descriptor_of w 1 := rfl
  rw [this]
  cases descriptor_of w 1 <;> rfl

theorem descriptor_of_get_by_name (hd : headers) (r : host_resolver β) (ctx : ipc_context)
    (w : world β) (name : u16string) (entry : name_entry)
    (h0 : get_argument_value w 0 = some name)
    (h1 : get_descriptor_argument_ptr w 1 = some entry) :
    descriptor_of (get_by_name hd r ctx w) 1 =
      (descriptor_of w 1).map (fun d =>
        { d with entry := (r.get_by_name w.backend { entry with name_ := name } ctx.info).entry,
                 length := hd.sizeof_name_entry }) := by
  unfold get_by_name
  simp only [h0, h1]
  rw [descriptor_of_set_length, descriptor_of_returned]
  have : descriptor_of ((store_entry w 1 { entry with name_ := name }).emit
      (event.get_by_name { entry with name_ := name } ctx.info)) 1 =
      descriptor_of (store_entry w 1 { entry with name_ := name }) 1 := rfl
  rw [this, descriptor_of_store_entry]
  cases descriptor_of w 1 <;> rfl

end traces

section claims
variable {β : Type}

/-- C1 (as stated, refuted): in the legacy generation under the sample
enumerators, opcode 999 is in no table, and one call of `dispatch` delivers
no code at all to the request: nothing is passed to `ctx->complete`, no token
reaches the backend, and the only event is the log entry. In particular the
request is not fulfilled once with the general-failure code. -/
theorem C1_unrecognised_left_pending :
    ¬ in_table sample_headers (generation_of sample_headers ⟨true, 5⟩ (sample_context 999 0)) 999 ∧
    dispatch_events sample_headers sample_resolver ⟨true, 5⟩ (sample_context 999 0)
        (sample_world empty_arg empty_arg) = [event.log_error 999] ∧
    delivered (sample_context 999 0).info
        (dispatch_events sample_headers sample_resolver ⟨true, 5⟩ (sample_context 999 0)
          (sample_world empty_arg empty_arg)) ≠ [sample_headers.error_general] := by
  decide

/-- C1 (amended): for every generation and every opcode that is not a case
label of that generation, `dispatch` calls no member function: it only appends
the log entry for the opcode, leaving slots, backend and subsession table as
they were, so the handler completes nothing, no token is handed to the backend
and no code is delivered to the request, which stays pending. -/
theorem C1_unrecognised_only_logged (hd : headers) (r : host_resolver β) (self : subsession)
    (ctx : ipc_context) (w : world β)
    (h : ¬ in_table hd (generation_of hd self ctx) ctx.msg.function) :
    dispatch_target hd self ctx = none ∧
    dispatch hd r self ctx w = { w with trace := w.trace ++ [event.log_error ctx.msg.function] } ∧
    dispatch_events hd r self ctx w = [event.log_error ctx.msg.function] ∧
    ctx_completions (dispatch_events hd r self ctx w) = [] ∧
    tokens_handed (dispatch_events hd r self ctx w) = [] ∧
    backend_calls (dispatch_events hd r self ctx w) = [] ∧
    delivered ctx.info (dispatch_events hd r self ctx w) = [] := by
  have ht : dispatch_target hd self ctx = none := (dispatch_target_none_iff hd self ctx).2 h
  have hd1 : ∀ w : world β, dispatch hd r self ctx w = log_unimplemented ctx w := by
    intro w; rw [dispatch_eq_target, ht]
  have he : dispatch_events hd r self ctx w = [event.log_error ctx.msg.function] := by
    simp [dispatch_events, hd1, log_unimplemented, world.emit]
  refine ⟨ht, ?_, he, ?_, ?_, ?_, ?_⟩
  · rw [hd1]; rfl
  · rw [he]; rfl
  · rw [he]; rfl
  · rw [he]; rfl
  · rw [he]; rfl

/-- Witness for C1 (amended): opcode 999 in the legacy generation. -/
theorem C1_unrecognised_only_logged_witness :
    ¬ in_table sample_headers (generation_of sample_headers ⟨true, 5⟩ (sample_context 999 0)) 999 ∧
    delivered (sample_context 999 0).info
      (dispatch_events sample_headers sample_resolver ⟨true, 5⟩ (sample_context 999 0)
        (sample_world empty_arg empty_arg)) = [] :=
  ⟨by decide,
   (C1_unrecognised_only_logged sample_headers sample_resolver ⟨true, 5⟩ (sample_context 999 0)
      (sample_world empty_arg empty_arg) (by decide)).2.2.2.2.2.2⟩

/-- Whichever member function runs, either it completes the context once and
hands no token to the backend, or it completes nothing and hands the
request's token to one backend operation. -/
theorem run_handler_fulfilment (h : handler) (hd : headers) (r : host_resolver β)
    (self : subsession) (ctx : ipc_context) (w : world β) (hw : w.trace = []) :
    (((ctx_completions (run_handler h hd r self ctx w).trace).length = 1 ∧
        tokens_handed (run_handler h hd r self ctx w).trace = []) ∨
      (ctx_completions (run_handler h hd r self ctx w).trace = [] ∧
        tokens_handed (run_handler h hd r self ctx w).trace = [ctx.info] ∧
        (backend_calls (run_handler h hd r self ctx w).trace).length = 1)) ∧
    (synchronous r → (delivered ctx.info (run_handler h hd r self ctx w).trace).length = 1) := by
  cases h with
  | get_host_name =>
    simp only [run_handler, get_host_name_trace, hw, List.nil_append]
    exact ⟨Or.inl ⟨rfl, rfl⟩, fun _ => rfl⟩
  | set_host_name =>
    simp only [run_handler, set_host_name_trace, hw, List.nil_append]
    cases get_argument_value w 0 with
    | none => exact ⟨Or.inl ⟨rfl, rfl⟩, fun _ => rfl⟩
    | some n => exact ⟨Or.inl ⟨rfl, rfl⟩, fun _ => rfl⟩
  | get_by_name =>
    simp only [run_handler, get_by_name_trace, hw, List.nil_append]
    cases get_argument_value w 0 with
    | none => exact ⟨Or.inl ⟨rfl, rfl⟩, fun _ => rfl⟩
    | some n =>
      cases get_descriptor_argument_ptr w 1 with
      | none => exact ⟨Or.inl ⟨rfl, rfl⟩, fun _ => rfl⟩
      | some e =>
        refine ⟨Or.inr ⟨?_, ?_, ?_⟩, fun hs => ?_⟩
        · rw [ctx_completions_call]; rfl
        · rw [tokens_handed_call]; rfl
        · rw [backend_calls_call]; rfl
        · obtain ⟨c, -, hc⟩ := delivered_notifications_once ctx.info _
            (hs.1 w.backend { e with name_ := n } ctx.info)
          rw [delivered_call, hc]; rfl
  | get_by_address =>
    simp only [run_handler, get_by_address_trace, hw, List.nil_append]
    cases get_argument_data_from_descriptor w 0 with
    | none => exact ⟨Or.inl ⟨rfl, rfl⟩, fun _ => rfl⟩
    | some a =>
      cases get_descriptor_argument_ptr w 1 with
      | none => exact ⟨Or.inl ⟨rfl, rfl⟩, fun _ => rfl⟩
      | some e =>
        refine ⟨Or.inr ⟨?_, ?_, ?_⟩, fun hs => ?_⟩
        · rw [ctx_completions_call]; rfl
        · rw [tokens_handed_call]; rfl
        · rw [backend_calls_call]; rfl
        · obtain ⟨c, -, hc⟩ := delivered_notifications_once ctx.info _
            (hs.2.1 w.backend a e ctx.info)
          rw [delivered_call, hc]; rfl
  | next =>
    simp only [run_handler, next_trace, hw, List.nil_append]
    cases get_descriptor_argument_ptr w 1 with
    | none => exact ⟨Or.inl ⟨rfl, rfl⟩, fun _ => rfl⟩
    | some e =>
      refine ⟨Or.inr ⟨?_, ?_, ?_⟩, fun hs => ?_⟩
      · rw [ctx_completions_call]; rfl
      · rw [tokens_handed_call]; rfl
      · rw [backend_calls_call]; rfl
      · obtain ⟨c, -, hc⟩ := delivered_notifications_once ctx.info _
          (hs.2.2.1 w.backend e ctx.info)
        rw [delivered_call, hc]; rfl
  | cancel =>
    simp only [run_handler, cancel_trace, hw, List.nil_append]
    refine ⟨Or.inl ⟨?_, ?_⟩, fun hs => ?_⟩
    · rw [ctx_completions_call]; rfl
    · rw [tokens_handed_call]; rfl
    · rw [hs.2.2.2 w.backend]; rfl
  | close =>
    simp only [run_handler, close_trace, hw, List.nil_append]
    exact ⟨Or.inl ⟨rfl, rfl⟩, fun _ => rfl⟩

/-- C2: for every generation and every opcode that is a case label of that
generation, whatever the argument slots hold, one call of `dispatch` either
completes the context exactly once and hands no token to the backend, or
completes the context zero times and hands exactly one token, built from the
message's request-status address and owning thread, to exactly one backend
operation. Hence, if the backend fulfils each token it receives exactly once
(counted by `fulfils`, now or later), the request is fulfilled exactly once;
and with a synchronous backend exactly one code is delivered to the request
during the call. -/
theorem C2_in_table_fulfilled_once (hd : headers) (r : host_resolver β) (self : subsession)
    (ctx : ipc_context) (w : world β)
    (h : in_table hd (generation_of hd self ctx) ctx.msg.function) :
    (((ctx_completions (dispatch_events hd r self ctx w)).length = 1 ∧
        tokens_handed (dispatch_events hd r self ctx w) = []) ∨
      (ctx_completions (dispatch_events hd r self ctx w) = [] ∧
        tokens_handed (dispatch_events hd r self ctx w) = [ctx.info] ∧
        (backend_calls (dispatch_events hd r self ctx w)).length = 1)) ∧
    (∀ fulfils : notify_info → Nat,
      (∀ t ∈ tokens_handed (dispatch_events hd r self ctx w), fulfils t = 1) →
      (ctx_completions (dispatch_events hd r self ctx w)).length +
        ((tokens_handed (dispatch_events hd r self ctx w)).map fulfils).sum = 1) ∧
    (synchronous r → (delivered ctx.info (dispatch_events hd r self ctx w)).length = 1) := by
  have ht : dispatch_target hd self ctx ≠ none := fun e =>
    (dispatch_target_none_iff hd self ctx).1 e h
  obtain ⟨t, ht⟩ := Option.ne_none_iff_exists'.1 ht
  have he : dispatch_events hd r self ctx w =
      (run_handler t hd r self ctx { w with trace := [] }).trace := by
    unfold dispatch_events
    rw [dispatch_eq_target, ht]
  rw [he]
  obtain ⟨h1, h2⟩ := run_handler_fulfilment t hd r self ctx { w with trace := [] } rfl
  refine ⟨h1, fun fulfils hf => ?_, h2⟩
  rcases h1 with ⟨a, b⟩ | ⟨a, b, -⟩
  · rw [a, b]; rfl
  · rw [b] at hf
    rw [a, b]
    simp [hf ctx.info (List.mem_singleton.2 rfl)]

/-- Witness for C2: the reformed get-by-name opcode with a name in slot 0 and
a buffer in slot 1, on the synchronous sample backend. -/
theorem C2_in_table_fulfilled_once_witness :
    in_table sample_headers (generation_of sample_headers ⟨false, 5⟩ (sample_context 41 9)) 41 ∧
    (delivered (sample_context 41 9).info
      (dispatch_events sample_headers sample_resolver ⟨false, 5⟩ (sample_context 41 9)
        (sample_world (text_arg [104]) (buffer_arg 548)))).length = 1 :=
  ⟨by decide,
   (C2_in_table_fulfilled_once sample_headers sample_resolver ⟨false, 5⟩ (sample_context 41 9)
      (sample_world (text_arg [104]) (buffer_arg 548)) (by decide)).2.2
      ⟨fun _ _ _ => rfl, fun _ _ _ _ => rfl, fun _ _ _ => rfl, fun _ => rfl⟩⟩

/-- C3: in an old-architecture session, whatever the OS version, the member
function `dispatch` calls is `get_host_name`, `set_host_name`, `close`,
`get_by_address`, `cancel` or `next` exactly for the legacy opcode of that
name; no opcode reaches `get_by_name`; every opcode outside the six labels has
no target and is only logged. -/
theorem C3_legacy_routing (hd : headers) (r : host_resolver β) (self : subsession)
    (ctx : ipc_context) (w : world β) (hold : self.is_oldarch = true)
    (hnd : hd.old_labels.Nodup) :
    generation_of hd self ctx = generation.legacy ∧
    (dispatch_target hd self ctx = some handler.get_host_name ↔
      ctx.msg.function = hd.socket_old_hr_get_host_name) ∧
    (dispatch_target hd self ctx = some handler.set_host_name ↔
      ctx.msg.function = hd.socket_old_hr_set_host_name) ∧
    (dispatch_target hd self ctx = some handler.close ↔
      ctx.msg.function = hd.socket_old_hr_close) ∧
    (dispatch_target hd self ctx = some handler.get_by_address ↔
      ctx.msg.function = hd.socket_old_hr_get_by_address) ∧
    (dispatch_target hd self ctx = some handler.cancel ↔
      ctx.msg.function = hd.socket_old_hr_cancel) ∧
    (dispatch_target hd self ctx = some handler.next ↔
      ctx.msg.function = hd.socket_old_hr_next) ∧
    dispatch_target hd self ctx ≠ some handler.get_by_name ∧
    (ctx.msg.function ∉ hd.old_labels →
      dispatch_target hd self ctx = none ∧ dispatch hd r self ctx w = log_unimplemented ctx w) ∧
    dispatch hd r self ctx w =
      (match dispatch_target hd self ctx with
       | some h => run_handler h hd r self ctx w
       | none => log_unimplemented ctx w) := by
  have hg : generation_of hd self ctx = generation.legacy := by simp [generation_of, hold]
  have hd0 := dispatch_eq_target hd r self ctx w
  refine ⟨hg, ?_, ?_, ?_, ?_, ?_, ?_, ?_, ?_, hd0⟩
  case refine_8 =>
    intro hn
    have ht : dispatch_target hd self ctx = none := by
      rw [dispatch_target_none_iff, hg]
      simpa [in_table, opcode_table, headers.old_labels] using hn
    exact ⟨ht, by rw [hd0, ht]⟩
  all_goals
    rw [dispatch_target_eq]
    simp only [headers.old_labels, List.nodup_cons, List.mem_cons, List.mem_singleton,
      List.not_mem_nil, not_or, or_false, List.nodup_nil, and_true, not_false_eq_true] at hnd
    simp only [hold, if_true]
    split_ifs <;> simp_all

/-- Witness for C3: the sample legacy labels are distinct and opcode 34, the
legacy cancel opcode, reaches `cancel`. -/
theorem C3_legacy_routing_witness :
    (true = true ∧ sample_headers.old_labels.Nodup) ∧
    (dispatch_target sample_headers ⟨true, 5⟩ (sample_context 34 3) = some handler.cancel ↔
      (sample_context 34 3).msg.function = sample_headers.socket_old_hr_cancel) :=
  ⟨⟨rfl, by decide⟩,
   (C3_legacy_routing sample_headers sample_resolver ⟨true, 5⟩ (sample_context 34 3)
      (sample_world empty_arg empty_arg) rfl (by decide)).2.2.2.2.2.1⟩

/-- C4: in a session that is not old-architecture, under an OS version of at
least `epoc95`, the member function `dispatch` calls is `get_by_name`,
`get_by_address`, `get_host_name`, `close` or `next` exactly for the reformed
opcode of that name; no opcode reaches `cancel` or `set_host_name`; every
opcode outside the five labels has no target and is only logged. -/
theorem C4_reformed_routing (hd : headers) (r : host_resolver β) (self : subsession)
    (ctx : ipc_context) (w : world β) (hnew : self.is_oldarch = false)
    (hver : ctx.symbian_version_use ≥ hd.epoc95) (hnd : hd.reform_labels.Nodup) :
    generation_of hd self ctx = generation.reformed ∧
    (dispatch_target hd self ctx = some handler.get_by_name ↔
      ctx.msg.function = hd.socket_reform_hr_get_by_name) ∧
    (dispatch_target hd self ctx = some handler.get_by_address ↔
      ctx.msg.function = hd.socket_reform_hr_get_by_addr) ∧
    (dispatch_target hd self ctx = some handler.get_host_name ↔
      ctx.msg.function = hd.socket_reform_hr_get_host_name) ∧
    (dispatch_target hd self ctx = some handler.close ↔
      ctx.msg.function = hd.socket_reform_hr_close) ∧
    (dispatch_target hd self ctx = some handler.next ↔
      ctx.msg.function = hd.socket_reform_hr_next) ∧
    dispatch_target hd self ctx ≠ some handler.cancel ∧
    dispatch_target hd self ctx ≠ some handler.set_host_name ∧
    (ctx.msg.function ∉ hd.reform_labels →
      dispatch_target hd self ctx = none ∧ dispatch hd r self ctx w = log_unimplemented ctx w) ∧
    dispatch hd r self ctx w =
      (match dispatch_target hd self ctx with
       | some h => run_handler h hd r self ctx w
       | none => log_unimplemented ctx w) := by
  have hg : generation_of hd self ctx = generation.reformed := by
    simp [generation_of, hnew, hver]
  have hd0 := dispatch_eq_target hd r self ctx w
  refine ⟨hg, ?_, ?_, ?_, ?_, ?_, ?_, ?_, ?_, hd0⟩
  case refine_8 =>
    intro hn
    have ht : dispatch_target hd self ctx = none := by
      rw [dispatch_target_none_iff, hg]
      simpa [in_table, opcode_table, headers.reform_labels] using hn
    exact ⟨ht, by rw [hd0, ht]⟩
  all_goals
    rw [dispatch_target_eq]
    simp only [headers.reform_labels, List.nodup_cons, List.mem_cons, List.mem_singleton,
      List.not_mem_nil, not_or, or_false, List.nodup_nil, and_true, not_false_eq_true] at hnd
    rw [if_neg (by simp [hnew]), if_pos hver]
    split_ifs <;> simp_all

/-- Witness for C4: under version 9, not below the sample threshold 8, the
sample reformed labels are distinct and opcode 43 reaches `get_by_address`. -/
theorem C4_reformed_routing_witness :
    (false = false ∧ (sample_context 43 9).symbian_version_use ≥ sample_headers.epoc95 ∧
      sample_headers.reform_labels.Nodup) ∧
    (dispatch_target sample_headers ⟨false, 5⟩ (sample_context 43 9) = some handler.get_by_address ↔
      (sample_context 43 9).msg.function = sample_headers.socket_reform_hr_get_by_addr) :=
  ⟨⟨rfl, by decide, by decide⟩,
   (C4_reformed_routing sample_headers sample_resolver ⟨false, 5⟩ (sample_context 43 9)
      (sample_world empty_arg empty_arg) rfl (by decide) (by decide)).2.2.1⟩

/-- C5: in a session that is not old-architecture, under an OS version below
`epoc95`, `dispatch` calls a member function for the two baseline labels only:
`get_by_name` for the baseline get-by-name opcode and `close` for the baseline
close opcode. Every other opcode value, whatever it means in another
generation, has no target: no member function runs and the opcode is only
logged. -/
theorem C5_baseline_routing (hd : headers) (r : host_resolver β) (self : subsession)
    (ctx : ipc_context) (w : world β) (hnew : self.is_oldarch = false)
    (hver : ctx.symbian_version_use < hd.epoc95) (hnd : hd.base_labels.Nodup) :
    generation_of hd self ctx = generation.baseline ∧
    (dispatch_target hd self ctx = some handler.get_by_name ↔
      ctx.msg.function = hd.socket_hr_get_by_name) ∧
    (dispatch_target hd self ctx = some handler.close ↔
      ctx.msg.function = hd.socket_hr_close) ∧
    (dispatch_target hd self ctx ≠ none ↔
      (ctx.msg.function = hd.socket_hr_get_by_name ∨ ctx.msg.function = hd.socket_hr_close)) ∧
    (∀ h, dispatch_target hd self ctx = some h → h = handler.get_by_name ∨ h = handler.close) ∧
    (ctx.msg.function ≠ hd.socket_hr_get_by_name → ctx.msg.function ≠ hd.socket_hr_close →
      dispatch_target hd self ctx = none ∧
      dispatch hd r self ctx w = { w with trace := w.trace ++ [event.log_error ctx.msg.function] }) ∧
    dispatch hd r self ctx w =
      (match dispatch_target hd self ctx with
       | some h => run_handler h hd r self ctx w
       | none => log_unimplemented ctx w) := by
  have hg : generation_of hd self ctx = generation.baseline := by
    simp [generation_of, hnew, hver]
  have hd0 := dispatch_eq_target hd r self ctx w
  have hte := dispatch_target_eq hd self ctx
  rw [if_neg (by simp [hnew]), if_neg (by omega)] at hte
  simp only [headers.base_labels, List.nodup_cons, List.mem_cons, List.mem_singleton,
    List.not_mem_nil, not_or, or_false, List.nodup_nil, and_true, not_false_eq_true] at hnd
  refine ⟨hg, ?_, ?_, ?_, ?_, ?_, hd0⟩
  case refine_5 =>
    intro h1 h2
    have ht : dispatch_target hd self ctx = none := by rw [hte, if_neg h1, if_neg h2]
    refine ⟨ht, ?_⟩
    rw [hd0, ht]; rfl
  all_goals
    rw [hte]
    split_ifs <;> simp_all

/-- Witness for C5: under version 3, below the sample threshold 8, the two
sample baseline labels are distinct and opcode 47 reaches `close`. -/
theorem C5_baseline_routing_witness :
    (false = false ∧ (sample_context 47 3).symbian_version_use < sample_headers.epoc95 ∧
      sample_headers.base_labels.Nodup) ∧
    (dispatch_target sample_headers ⟨false, 5⟩ (sample_context 47 3) = some handler.close ↔
      (sample_context 47 3).msg.function = sample_headers.socket_hr_close) :=
  ⟨⟨rfl, by decide, by decide⟩,
   (C5_baseline_routing sample_headers sample_resolver ⟨false, 5⟩ (sample_context 47 3)
      (sample_world empty_arg empty_arg) rfl (by decide) (by decide)).2.2.1⟩

/-- C6: the legacy set-host-name opcode runs `set_host_name`, which completes
the request exactly once: with `error_argument` when slot 0 yields no text,
and then the backend is not called at all; with `error_general` when slot 0
yields a text and the backend reports failure; with `error_none` when it
reports success. The backend is called (once, with that text) exactly when
slot 0 yields a text. -/
theorem C6_set_host_name (hd : headers) (r : host_resolver β) (self : subsession)
    (ctx : ipc_context) (w : world β) (hold : self.is_oldarch = true)
    (hop : ctx.msg.function = hd.socket_old_hr_set_host_name)
    (hne : hd.socket_old_hr_set_host_name ≠ hd.socket_old_hr_get_host_name) :
    dispatch hd r self ctx w = set_host_name hd r w ∧
    (get_argument_value w 0 = none →
      dispatch_events hd r self ctx w = [event.complete hd.error_argument] ∧
      backend_calls (dispatch_events hd r self ctx w) = [] ∧
      (dispatch hd r self ctx w).backend = w.backend) ∧
    (∀ name, get_argument_value w 0 = some name → (r.set_host_name w.backend name).1 = false →
      dispatch_events hd r self ctx w =
        [event.set_host_name name, event.complete hd.error_general]) ∧
    (∀ name, get_argument_value w 0 = some name → (r.set_host_name w.backend name).1 = true →
      dispatch_events hd r self ctx w =
        [event.set_host_name name, event.complete hd.error_none]) ∧
    (ctx_completions (dispatch_events hd r self ctx w)).length = 1 ∧
    (backend_calls (dispatch_events hd r self ctx w) ≠ [] ↔ (get_argument_value w 0).isSome) ∧
    (∀ name, get_argument_value w 0 = some name →
      backend_calls (dispatch_events hd r self ctx w) = [event.set_host_name name]) := by
  have hd1 : ∀ w : world β, dispatch hd r self ctx w = set_host_name hd r w := by
    intro w
    unfold dispatch
    rw [if_pos hold, if_neg (by rw [hop]; exact hne), if_pos hop]
  have he : dispatch_events hd r self ctx w =
      match get_argument_value w 0 with
      | none => [event.complete hd.error_argument]
      | some n => [event.set_host_name n,
          event.complete (if (r.set_host_name w.backend n).1 then hd.error_none
            else hd.error_general)] := by
    unfold dispatch_events
    rw [hd1, set_host_name_trace]
    rfl
  refine ⟨hd1 w, ?_, ?_, ?_, ?_, ?_, ?_⟩
  · intro h0
    refine ⟨by rw [he, h0], by rw [he, h0]; rfl, ?_⟩
    rw [hd1]; unfold set_host_name; rw [h0]; rfl
  · intro n h0 hb
    rw [he, h0]; simp [hb]
  · intro n h0 hb
    rw [he, h0]; simp [hb]
  · rw [he]; cases get_argument_value w 0 <;> rfl
  · rw [he]; cases get_argument_value w 0 <;> simp [backend_calls]
  · intro n h0
    rw [he, h0]; rfl

/-- Witness for C6: the sample legacy set-host-name opcode 31 with the text
"hi" in slot 0, which the sample backend accepts. -/
theorem C6_set_host_name_witness :
    (true = true ∧ (sample_context 31 0).msg.function = sample_headers.socket_old_hr_set_host_name ∧
      sample_headers.socket_old_hr_set_host_name ≠ sample_headers.socket_old_hr_get_host_name ∧
      get_argument_value (sample_world (text_arg [104, 105]) empty_arg) 0 = some [104, 105] ∧
      (sample_resolver.set_host_name () [104, 105]).1 = true) ∧
    dispatch_events sample_headers sample_resolver ⟨true, 5⟩ (sample_context 31 0)
        (sample_world (text_arg [104, 105]) empty_arg) =
      [event.set_host_name [104, 105], event.complete sample_headers.error_none] :=
  ⟨⟨rfl, rfl, by decide, rfl, rfl⟩,
   (C6_set_host_name sample_headers sample_resolver ⟨true, 5⟩ (sample_context 31 0)
      (sample_world (text_arg [104, 105]) empty_arg) rfl rfl (by decide)).2.2.2.1
      [104, 105] rfl rfl⟩

/-- C7: in the reformed generation, the get-by-addr opcode with an address
value in slot 0 and a buffer in slot 1 makes exactly one backend call:
`get_by_address` with the decoded address, the record behind slot 1 and the
token of the request's status address and thread; the handler itself
completes nothing. When the backend fills the entry and fulfils that token
with `error_none`, the one code delivered to the request is `error_none` and
slot 1 holds the filled entry. -/
theorem C7_reformed_get_by_addr (hd : headers) (r : host_resolver β) (self : subsession)
    (ctx : ipc_context) (w : world β) (addr : saddress) (entry : name_entry)
    (hnew : self.is_oldarch = false) (hver : ctx.symbian_version_use ≥ hd.epoc95)
    (hop : ctx.msg.function = hd.socket_reform_hr_get_by_addr)
    (hne : hd.socket_reform_hr_get_by_addr ≠ hd.socket_reform_hr_get_by_name)
    (h0 : get_argument_data_from_descriptor w 0 = some addr)
    (h1 : get_descriptor_argument_ptr w 1 = some entry) :
    dispatch hd r self ctx w = get_by_address hd r ctx w ∧
    backend_calls (dispatch_events hd r self ctx w) = [event.get_by_address addr entry ctx.info] ∧
    tokens_handed (dispatch_events hd r self ctx w) =
      [{ sts := ctx.msg.request_sts, requester := ctx.msg.own_thr }] ∧
    ctx_completions (dispatch_events hd r self ctx w) = [] ∧
    (∀ filled : name_entry,
      (r.get_by_address w.backend addr entry ctx.info).entry = filled →
      (r.get_by_address w.backend addr entry ctx.info).completed = [(ctx.info, hd.error_none)] →
      delivered ctx.info (dispatch_events hd r self ctx w) = [hd.error_none] ∧
      get_descriptor_argument_ptr (dispatch hd r self ctx w) 1 = some filled) := by
  have hd1 : ∀ w : world β, dispatch hd r self ctx w = get_by_address hd r ctx w := by
    intro w
    unfold dispatch
    rw [if_neg (by simp [hnew]), if_pos hver, if_neg (by rw [hop]; exact hne), if_pos hop]
  have he : dispatch_events hd r self ctx w =
      event.get_by_address addr entry ctx.info ::
        (notifications (r.get_by_address w.backend addr entry ctx.info).completed ++
          [event.set_descriptor_argument_length 1 hd.sizeof_name_entry]) := by
    unfold dispatch_events
    rw [hd1, get_by_address_trace]
    have e0 : get_argument_data_from_descriptor { w with trace := [] } 0 = some addr := h0
    have e1 : get_descriptor_argument_ptr { w with trace := [] } 1 = some entry := h1
    rw [e0, e1]
    rfl
  refine ⟨hd1 w, ?_, ?_, ?_, ?_⟩
  · rw [he, backend_calls_call]; rfl
  · rw [he, tokens_handed_call]; rfl
  · rw [he, ctx_completions_call]; rfl
  · intro filled hf hc
    constructor
    · rw [he, delivered_call, hc]
      simp [delivered, notifications]
    · rw [hd1]
      unfold get_descriptor_argument_ptr
      rw [descriptor_of_get_by_address hd r ctx w addr entry h0 h1, hf]
      unfold get_descriptor_argument_ptr at h1
      cases hdes : descriptor_of w 1 with
      | none => rw [hdes] at h1; cases h1
      | some d => rfl

/-- Witness for C7: the sample reformed get-by-addr opcode 43 under version 9
with the address `[10, 0, 0, 1]` and a buffer of the record size. -/
theorem C7_reformed_get_by_addr_witness :
    (false = false ∧ (sample_context 43 9).symbian_version_use ≥ sample_headers.epoc95 ∧
      (sample_context 43 9).msg.function = sample_headers.socket_reform_hr_get_by_addr ∧
      sample_headers.socket_reform_hr_get_by_addr ≠ sample_headers.socket_reform_hr_get_by_name ∧
      get_argument_data_from_descriptor
        (sample_world (address_arg ⟨[10, 0, 0, 1]⟩) (buffer_arg 548)) 0 = some ⟨[10, 0, 0, 1]⟩ ∧
      get_descriptor_argument_ptr
        (sample_world (address_arg ⟨[10, 0, 0, 1]⟩) (buffer_arg 548)) 1 = some empty_entry) ∧
    (delivered (sample_context 43 9).info
        (dispatch_events sample_headers sample_resolver ⟨false, 5⟩ (sample_context 43 9)
          (sample_world (address_arg ⟨[10, 0, 0, 1]⟩) (buffer_arg 548))) =
        [sample_headers.error_none] ∧
      get_descriptor_argument_ptr
        (dispatch sample_headers sample_resolver ⟨false, 5⟩ (sample_context 43 9)
          (sample_world (address_arg ⟨[10, 0, 0, 1]⟩) (buffer_arg 548))) 1 =
        some { name_ := [97, 98], addr_ := ⟨[10, 0, 0, 1]⟩, service_ := [], flags_ := 0 }) :=
  ⟨⟨rfl, by decide, rfl, by decide, rfl, rfl⟩,
   (C7_reformed_get_by_addr sample_headers sample_resolver ⟨false, 5⟩ (sample_context 43 9)
      (sample_world (address_arg ⟨[10, 0, 0, 1]⟩) (buffer_arg 548)) ⟨[10, 0, 0, 1]⟩ empty_entry
      rfl (by decide) rfl (by decide) rfl rfl).2.2.2.2 _ rfl rfl⟩

/-- Completing with `error_argument` and returning is a rejection. -/
theorem rejected_complete (hd : headers) (w : world β) :
    rejected hd w (complete w hd.error_argument) := by
  refine ⟨rfl, ?_, ?_, ?_, ?_, rfl, rfl⟩
  · exact ctx_completions_append _ _
  · exact (backend_calls_append _ _).trans (List.append_nil _)
  · exact (tokens_handed_append _ _).trans (List.append_nil _)
  · exact (length_writes_append _ _).trans (List.append_nil _)

/-- C8: `get_by_name` when slot 0 yields no text or slot 1 yields no buffer,
`get_by_address` when slot 0 yields no address value or slot 1 yields no
buffer, and `next` when slot 1 yields no buffer, complete the request with
`error_argument` and do nothing else: the backend is not called and the
length field of the outbound slot is not written. -/
theorem C8_missing_argument_rejected (hd : headers) (r : host_resolver β) (ctx : ipc_context)
    (w : world β) :
    ((get_argument_value w 0 = none ∨ get_descriptor_argument_ptr w 1 = none) →
      rejected hd w (get_by_name hd r ctx w)) ∧
    ((get_argument_data_from_descriptor w 0 = none ∨ get_descriptor_argument_ptr w 1 = none) →
      rejected hd w (get_by_address hd r ctx w)) ∧
    (get_descriptor_argument_ptr w 1 = none → rejected hd w (next hd r ctx w)) := by
  refine ⟨fun h => ?_, fun h => ?_, fun h => ?_⟩
  · have e : get_by_name hd r ctx w = complete w hd.error_argument := by
      unfold get_by_name
      rcases h with h | h
      · rw [h]
      · rw [h]; cases get_argument_value w 0 <;> rfl
    rw [e]; exact rejected_complete hd w
  · have e : get_by_address hd r ctx w = complete w hd.error_argument := by
      unfold get_by_address
      rcases h with h | h
      · rw [h]
      · rw [h]; cases get_argument_data_from_descriptor w 0 <;> rfl
    rw [e]; exact rejected_complete hd w
  · have e : next hd r ctx w = complete w hd.error_argument := by
      unfold next
      rw [h]
    rw [e]; exact rejected_complete hd w

/-- Witness for C8: `get_by_name` with a text in slot 0 and nothing in slot 1. -/
theorem C8_missing_argument_rejected_witness :
    (get_argument_value (sample_world (text_arg [104]) empty_arg) 0 = none ∨
      get_descriptor_argument_ptr (sample_world (text_arg [104]) empty_arg) 1 = none) ∧
    rejected sample_headers (sample_world (text_arg [104]) empty_arg)
      (get_by_name sample_headers sample_resolver (sample_context 41 9)
        (sample_world (text_arg [104]) empty_arg)) :=
  ⟨Or.inr rfl,
   (C8_missing_argument_rejected sample_headers sample_resolver (sample_context 41 9)
      (sample_world (text_arg [104]) empty_arg)).1 (Or.inr rfl)⟩

/-- C9 (as stated, refuted): `get_by_name` with a text in slot 0 and, in
slot 1, a buffer of capacity 3, smaller than the sample record size 548. The
handler does not complete with `error_argument`: it completes nothing, calls
the backend's `get_by_name`, and writes into the slot, whose entry then holds
the name and the address the backend stored and whose length field is 548. -/
theorem C9_undersized_buffer_accepted :
    (descriptor_of (sample_world (text_arg [104]) (buffer_arg 3)) 1).map descriptor.max_length =
      some 3 ∧
    3 < sample_headers.sizeof_name_entry ∧
    ctx_completions (get_by_name sample_headers sample_resolver (sample_context 41 9)
      (sample_world (text_arg [104]) (buffer_arg 3))).trace = [] ∧
    backend_calls (get_by_name sample_headers sample_resolver (sample_context 41 9)
      (sample_world (text_arg [104]) (buffer_arg 3))).trace =
      [event.get_by_name { empty_entry with name_ := [104] } (sample_context 41 9).info] ∧
    descriptor_of (get_by_name sample_headers sample_resolver (sample_context 41 9)
      (sample_world (text_arg [104]) (buffer_arg 3))) 1 =
      some { max_length := 3, length := 548,
             entry := { name_ := [104], addr_ := ⟨[127, 0, 0, 1]⟩, service_ := [], flags_ := 0 } } ∧
    ¬ rejected sample_headers (sample_world (text_arg [104]) (buffer_arg 3))
      (get_by_name sample_headers sample_resolver (sample_context 41 9)
        (sample_world (text_arg [104]) (buffer_arg 3))) := by
  refine ⟨by decide, by decide, by decide, by decide, by decide, fun h => ?_⟩
  exact absurd h.2.1 (by decide)

/-- C9 (amended): the capacity of the outbound buffer is not examined. When
slot 1 yields a buffer whose capacity is smaller than `sizeof(name_entry)`
(and slot 0 is valid, for `get_by_name` and `get_by_address`), each of the
three handlers behaves as for any present buffer: it completes nothing
itself, hands the record behind the buffer and the request's token to the
backend in exactly one call, and then writes `sizeof(name_entry)` into the
length field of slot 1. -/
theorem C9_capacity_not_examined (hd : headers) (r : host_resolver β) (ctx : ipc_context)
    (w : world β) (d : descriptor) (hdes : descriptor_of w 1 = some d)
    (_hsmall : d.max_length < hd.sizeof_name_entry) :
    (∀ name, get_argument_value w 0 = some name →
      (get_by_name hd r ctx w).trace = w.trace ++
        event.get_by_name { d.entry with name_ := name } ctx.info ::
          (notifications (r.get_by_name w.backend { d.entry with name_ := name } ctx.info).completed ++
            [event.set_descriptor_argument_length 1 hd.sizeof_name_entry]) ∧
      ctx_completions (get_by_name hd r ctx w).trace = ctx_completions w.trace) ∧
    (∀ addr, get_argument_data_from_descriptor w 0 = some addr →
      (get_by_address hd r ctx w).trace = w.trace ++
        event.get_by_address addr d.entry ctx.info ::
          (notifications (r.get_by_address w.backend addr d.entry ctx.info).completed ++
            [event.set_descriptor_argument_length 1 hd.sizeof_name_entry]) ∧
      ctx_completions (get_by_address hd r ctx w).trace = ctx_completions w.trace) ∧
    ((next hd r ctx w).trace = w.trace ++
        event.next d.entry ctx.info ::
          (notifications (r.next w.backend d.entry ctx.info).completed ++
            [event.set_descriptor_argument_length 1 hd.sizeof_name_entry]) ∧
      ctx_completions (next hd r ctx w).trace = ctx_completions w.trace) := by
  have h1 : get_descriptor_argument_ptr w 1 = some d.entry := by
    unfold get_descriptor_argument_ptr; rw [hdes]; rfl
  have hc : ∀ (e : event) (cs : List (notify_info × Int)) (n : Nat), ctx_completions [e] = [] →
      ctx_completions (w.trace ++ e :: (notifications cs ++
        [event.set_descriptor_argument_length 1 n])) = ctx_completions w.trace := by
    intro e cs n he
    rw [ctx_completions_append, ctx_completions_call, he]
    exact List.append_nil _
  refine ⟨fun name h0 => ?_, fun addr h0 => ?_, ?_⟩
  · have e := get_by_name_trace hd r ctx w
    rw [h0, h1] at e
    exact ⟨e, by rw [e]; exact hc _ _ _ rfl⟩
  · have e := get_by_address_trace hd r ctx w
    rw [h0, h1] at e
    exact ⟨e, by rw [e]; exact hc _ _ _ rfl⟩
  · have e := next_trace hd r ctx w
    rw [h1] at e
    exact ⟨e, by rw [e]; exact hc _ _ _ rfl⟩

/-- Witness for C9 (amended): `next` on a buffer of capacity 3 under the
sample record size 548, with the base-class backend body. -/
theorem C9_capacity_not_examined_witness :
    (descriptor_of (sample_world empty_arg (buffer_arg 3)) 1 =
        some { max_length := 3, length := 0, entry := empty_entry } ∧
      3 < sample_headers.sizeof_name_entry) ∧
    ctx_completions (next sample_headers sample_resolver (sample_context 42 9)
      (sample_world empty_arg (buffer_arg 3))).trace =
      ctx_completions (sample_world empty_arg (buffer_arg 3)).trace :=
  ⟨⟨rfl, by decide⟩,
   (C9_capacity_not_examined sample_headers sample_resolver (sample_context 42 9)
      (sample_world empty_arg (buffer_arg 3))
      { max_length := 3, length := 0, entry := empty_entry } rfl (by decide)).2.2.2⟩

/-- C10: whenever the arguments of `get_by_name` or `get_by_address` pass
validation, the handler writes exactly one length, into slot 1, and it is
`sizeof(name_entry)`, which is then the length field of the slot: the same
constant for every query, every backend and whatever the backend stored in
the entry. -/
theorem C10_reported_length (hd : headers) (r : host_resolver β) (ctx : ipc_context)
    (w : world β) :
    (∀ name entry, get_argument_value w 0 = some name →
      get_descriptor_argument_ptr w 1 = some entry →
      length_writes (get_by_name hd r ctx w).trace =
        length_writes w.trace ++ [(1, hd.sizeof_name_entry)] ∧
      (descriptor_of (get_by_name hd r ctx w) 1).map descriptor.length =
        some hd.sizeof_name_entry) ∧
    (∀ addr entry, get_argument_data_from_descriptor w 0 = some addr →
      get_descriptor_argument_ptr w 1 = some entry →
      length_writes (get_by_address hd r ctx w).trace =
        length_writes w.trace ++ [(1, hd.sizeof_name_entry)] ∧
      (descriptor_of (get_by_address hd r ctx w) 1).map descriptor.length =
        some hd.sizeof_name_entry) := by
  have hdes : ∀ entry, get_descriptor_argument_ptr w 1 = some entry →
      ∃ d, descriptor_of w 1 = some d := by
    intro entry h1
    unfold get_descriptor_argument_ptr at h1
    cases hd1 : descriptor_of w 1 with
    | none => rw [hd1] at h1; cases h1
    | some d => exact ⟨d, rfl⟩
  refine ⟨fun name entry h0 h1 => ⟨?_, ?_⟩, fun addr entry h0 h1 => ⟨?_, ?_⟩⟩
  · have e := get_by_name_trace hd r ctx w
    rw [h0, h1] at e
    rw [e, length_writes_append, length_writes_call]; rfl
  · obtain ⟨d, hd1⟩ := hdes entry h1
    rw [descriptor_of_get_by_name hd r ctx w name entry h0 h1, hd1]; rfl
  · have e := get_by_address_trace hd r ctx w
    rw [h0, h1] at e
    rw [e, length_writes_append, length_writes_call]; rfl
  · obtain ⟨d, hd1⟩ := hdes entry h1
    rw [descriptor_of_get_by_address hd r ctx w addr entry h0 h1, hd1]; rfl

/-- Witness for C10: `get_by_name` for the one-unit name "h" with a buffer of
the record size. -/
theorem C10_reported_length_witness :
    (get_argument_value (sample_world (text_arg [104]) (buffer_arg 548)) 0 = some [104] ∧
      get_descriptor_argument_ptr (sample_world (text_arg [104]) (buffer_arg 548)) 1 =
        some empty_entry) ∧
    (length_writes (get_by_name sample_headers sample_resolver (sample_context 41 9)
        (sample_world (text_arg [104]) (buffer_arg 548))).trace =
        length_writes (sample_world (text_arg [104]) (buffer_arg 548)).trace ++
          [(1, sample_headers.sizeof_name_entry)] ∧
      (descriptor_of (get_by_name sample_headers sample_resolver (sample_context 41 9)
        (sample_world (text_arg [104]) (buffer_arg 548))) 1).map descriptor.length =
        some sample_headers.sizeof_name_entry) :=
  ⟨⟨rfl, rfl⟩,
   (C10_reported_length sample_headers sample_resolver (sample_context 41 9)
      (sample_world (text_arg [104]) (buffer_arg 548))).1 [104] empty_entry rfl rfl⟩

/-- C11: the base-class `host_resolver::next`, called in any backend state
(so on the first call and on every later one, as it leaves the state as it
found it), fulfils the token it was given exactly once, with `error_eof`, and
returns the result entry unmodified. -/
theorem C11_stub_next_end_of_results (hd : headers) (b : β) (result : name_entry)
    (complete_info : notify_info) (n : Nat) :
    (host_resolver.next_default hd b result complete_info).completed =
      [(complete_info, hd.error_eof)] ∧
    (host_resolver.next_default hd b result complete_info).entry = result ∧
    (host_resolver.next_default hd b result complete_info).backend = b ∧
    (fun s : β => (host_resolver.next_default hd s result complete_info).backend)^[n] b = b ∧
    delivered complete_info
      (notifications (host_resolver.next_default hd
        ((fun s : β => (host_resolver.next_default hd s result complete_info).backend)^[n] b)
        result complete_info).completed) = [hd.error_eof] := by
  have hit : (fun s : β => (host_resolver.next_default hd s result complete_info).backend)^[n] b
      = b := by
    induction n with
    | zero => rfl
    | succ k ih => rw [Function.iterate_succ_apply]; exact ih
  refine ⟨rfl, rfl, rfl, hit, ?_⟩
  simp [host_resolver.next_default, notifications, delivered]

theorem lookup_remove_self (t : subsession_table) (id : Nat) :
    (t.remove id).lookup id = none := by
  unfold subsession_table.lookup subsession_table.remove
  rw [Option.map_eq_none', List.find?_eq_none]
  intro e he
  have := (List.mem_filter.1 he).2
  simpa using this

theorem lookup_remove_other (t : subsession_table) (id h : Nat) (hne : h ≠ id) :
    (t.remove id).lookup h = t.lookup h := by
  unfold subsession_table.lookup subsession_table.remove
  induction t with
  | nil => rfl
  | cons e t ih =>
    by_cases he : e.1 = id
    · have hf : (e.1 != id) = false := by simp [he]
      have hh : (e.1 == h) = false := by simp [he, Ne.symm hne]
      rw [List.filter_cons_of_neg (by simp [he]), List.find?_cons_of_neg _ (by simp [hh])]
      exact ih
    · rw [List.filter_cons_of_pos (by simp [he])]
      by_cases hh : e.1 = h
      · rw [List.find?_cons_of_pos _ (by simp [hh]), List.find?_cons_of_pos _ (by simp [hh])]
      · rw [List.find?_cons_of_neg _ (by simp [hh]), List.find?_cons_of_neg _ (by simp [hh])]
        exact ih

theorem remove_absent (t : subsession_table) (id : Nat) (h : id ∉ t.handles) :
    t.remove id = t := by
  unfold subsession_table.remove
  rw [List.filter_eq_self]
  intro e he
  have : e.1 ≠ id := fun e1 => h (e1 ▸ List.mem_map_of_mem Prod.fst he)
  simp [this]

theorem remove_length (t : subsession_table) (id : Nat) (hn : t.handles.Nodup)
    (hm : id ∈ t.handles) : (t.remove id).length + 1 = t.length := by
  induction t with
  | nil => cases hm
  | cons e t ih =>
    have hn2 : (e.1 :: subsession_table.handles t).Nodup := hn
    rw [List.nodup_cons] at hn2
    by_cases he : e.1 = id
    · have hrest : subsession_table.remove t id = t := remove_absent t id (he ▸ hn2.1)
      have : subsession_table.remove (e :: t) id = subsession_table.remove t id := by
        unfold subsession_table.remove
        rw [List.filter_cons_of_neg (by simp [he])]
      rw [this, hrest]; rfl
    · have hm2 : id ∈ subsession_table.handles t := by
        have hm1 : id ∈ e.1 :: subsession_table.handles t := hm
        rcases List.mem_cons.1 hm1 with h1 | h1
        · exact absurd h1.symm he
        · exact h1
      have : subsession_table.remove (e :: t) id = e :: subsession_table.remove t id := by
        unfold subsession_table.remove
        rw [List.filter_cons_of_pos (by simp [he])]
      rw [this, List.length_cons, List.length_cons, ih hn2.2 hm2]

/-- C12: `close` replaces the session's subsession table by the table without
the entry under this subsession's own id: that handle is mapped to nothing
afterwards, every other handle is mapped to what it was mapped to before, and
the request is completed, once, with `error_none`. When the table, a mapping
with each handle at most once, held this subsession's handle, it holds one
entry fewer afterwards. -/
theorem C12_close_removes_own_entry (hd : headers) (self : subsession) (w : world β) :
    (close hd self w).subsessions = w.subsessions.remove self.id_ ∧
    (close hd self w).subsessions.lookup self.id_ = none ∧
    (∀ h, h ≠ self.id_ → (close hd self w).subsessions.lookup h = w.subsessions.lookup h) ∧
    (close hd self w).trace = w.trace ++ [event.remove self.id_, event.complete hd.error_none] ∧
    ctx_completions (close hd self w).trace = ctx_completions w.trace ++ [hd.error_none] ∧
    (w.subsessions.handles.Nodup → self.id_ ∈ w.subsessions.handles →
      (close hd self w).subsessions.length + 1 = w.subsessions.length) := by
  have hs : (close hd self w).subsessions = w.subsessions.remove self.id_ := rfl
  refine ⟨hs, ?_, ?_, close_trace hd self w, ?_, ?_⟩
  · rw [hs]; exact lookup_remove_self _ _
  · intro h hne; rw [hs]; exact lookup_remove_other _ _ _ hne
  · rw [close_trace, ctx_completions_append]; rfl
  · intro hn hm; rw [hs]; exact remove_length _ _ hn hm

/-- Witness for C12: the sample table holds handles 5 and 6 and the
subsession closes under its own handle 5. -/
theorem C12_close_removes_own_entry_witness :
    ((sample_world empty_arg empty_arg).subsessions.handles.Nodup ∧
      5 ∈ (sample_world empty_arg empty_arg).subsessions.handles) ∧
    (close sample_headers ⟨true, 5⟩ (sample_world empty_arg empty_arg)).subsessions.length + 1 =
      (sample_world empty_arg empty_arg).subsessions.length :=
  ⟨⟨by decide, by decide⟩,
   (C12_close_removes_own_entry sample_headers ⟨true, 5⟩
      (sample_world empty_arg empty_arg)).2.2.2.2.2 (by decide) (by decide)⟩

/-- The codes a member function passes to `ctx->complete` are among
`error_none`, `error_argument` and `error_general`. -/
theorem run_handler_codes (h : handler) (hd : headers) (r : host_resolver β)
    (self : subsession) (ctx : ipc_context) (w : world β) (hw : w.trace = []) :
    ctx_completions (run_handler h hd r self ctx w).trace ⊆
      [hd.error_none, hd.error_argument, hd.error_general] := by
  cases h with
  | get_host_name =>
    simp only [run_handler, get_host_name_trace, hw, List.nil_append]
    intro c hc
    have : c = hd.error_none := by simpa [ctx_completions] using hc
    simp [this]
  | set_host_name =>
    simp only [run_handler, set_host_name_trace, hw, List.nil_append]
    intro c hc
    cases h0 : get_argument_value w 0 with
    | none =>
      rw [h0] at hc
      have : c = hd.error_argument := by simpa [ctx_completions] using hc
      simp [this]
    | some n =>
      rw [h0] at hc
      have : c = if (r.set_host_name w.backend n).1 = true then hd.error_none
          else hd.error_general := by
        simpa [ctx_completions] using hc
      rw [this]
      split_ifs <;> simp
  | get_by_name =>
    simp only [run_handler, get_by_name_trace, hw, List.nil_append]
    intro c hc
    cases h0 : get_argument_value w 0 with
    | none =>
      rw [h0] at hc
      have : c = hd.error_argument := by simpa [ctx_completions] using hc
      simp [this]
    | some n =>
      cases h1 : get_descriptor_argument_ptr w 1 with
      | none =>
        rw [h0, h1] at hc
        have : c = hd.error_argument := by simpa [ctx_completions] using hc
        simp [this]
      | some e =>
        rw [h0, h1] at hc
        simp only [] at hc
        rw [ctx_completions_call] at hc
        cases hc
  | get_by_address =>
    simp only [run_handler, get_by_address_trace, hw, List.nil_append]
    intro c hc
    cases h0 : get_argument_data_from_descriptor w 0 with
    | none =>
      rw [h0] at hc
      have : c = hd.error_argument := by simpa [ctx_completions] using hc
      simp [this]
    | some a =>
      cases h1 : get_descriptor_argument_ptr w 1 with
      | none =>
        rw [h0, h1] at hc
        have : c = hd.error_argument := by simpa [ctx_completions] using hc
        simp [this]
      | some e =>
        rw [h0, h1] at hc
        simp only [] at hc
        rw [ctx_completions_call] at hc
        cases hc
  | next =>
    simp only [run_handler, next_trace, hw, List.nil_append]
    intro c hc
    cases h1 : get_descriptor_argument_ptr w 1 with
    | none =>
      rw [h1] at hc
      have : c = hd.error_argument := by simpa [ctx_completions] using hc
      simp [this]
    | some e =>
      rw [h1] at hc
      simp only [] at hc
      rw [ctx_completions_call] at hc
      cases hc
  | cancel =>
    simp only [run_handler, cancel_trace, hw, List.nil_append]
    intro c hc
    rw [ctx_completions_call] at hc
    have : c = hd.error_none := by simpa [ctx_completions] using hc
    simp [this]
  | close =>
    simp only [run_handler, close_trace, hw, List.nil_append]
    intro c hc
    have : c = hd.error_none := by simpa [ctx_completions] using hc
    simp [this]

/-- C13: on every path of `dispatch`, in every generation and for all
argument slots, each code the handlers pass to `ctx->complete` is
`error_none`, `error_argument`, `error_general` or `error_eof`, and so is each
code the base-class `host_resolver::next` passes to the token. -/
theorem C13_result_codes (hd : headers) (r : host_resolver β) (self : subsession)
    (ctx : ipc_context) (w : world β) (b : β) (result : name_entry) (complete_info : notify_info) :
    ctx_completions (dispatch_events hd r self ctx w) ⊆
      [hd.error_none, hd.error_argument, hd.error_general, hd.error_eof] ∧
    (host_resolver.next_default hd b result complete_info).completed.map Prod.snd ⊆
      [hd.error_none, hd.error_argument, hd.error_general, hd.error_eof] := by
  constructor
  · unfold dispatch_events
    rw [dispatch_eq_target]
    cases ht : dispatch_target hd self ctx with
    | none =>
      intro c hc
      cases hc
    | some t =>
      intro c hc
      have := run_handler_codes t hd r self ctx { w with trace := [] } rfl hc
      simp only [List.mem_cons, List.mem_singleton, List.not_mem_nil, or_false] at this ⊢
      tauto
  · intro c hc
    have : c = hd.error_eof := by simpa [host_resolver.next_default] using hc
    simp [this]

/-- C15 (as stated, refuted): `get_by_name` with a name in slot 0 and a
buffer in slot 1, on the sample backend, which fulfils the token with
`error_none` inside the call. The token is fulfilled first and the length
field of slot 1 is written afterwards. -/
theorem C15_length_written_after_fulfilment :
    (sample_resolver.get_by_name () { empty_entry with name_ := [104] }
        (sample_context 41 9).info).completed =
      [((sample_context 41 9).info, sample_headers.error_none)] ∧
    (get_by_name sample_headers sample_resolver (sample_context 41 9)
        (sample_world (text_arg [104]) (buffer_arg 548))).trace =
      [event.get_by_name { empty_entry with name_ := [104] } (sample_context 41 9).info] ++
        event.notify_complete (sample_context 41 9).info sample_headers.error_none ::
          [event.set_descriptor_argument_length 1 548] := by
  constructor <;> decide

/-- C15 (amended): in `get_by_name` and `get_by_address` with valid
arguments, the length is written after the backend call has returned.
Whenever the backend fulfils the request's token inside the call, with any
code, that fulfilment comes first in the trace and the write of
`sizeof(name_entry)` into the length field of slot 1 comes after it, as the
last action of the handler. -/
theorem C15_fulfilment_precedes_length_write (hd : headers) (r : host_resolver β)
    (ctx : ipc_context) (w : world β) (entry : name_entry) (code : Int)
    (h1 : get_descriptor_argument_ptr w 1 = some entry) :
    (∀ name, get_argument_value w 0 = some name →
      (ctx.info, code) ∈ (r.get_by_name w.backend { entry with name_ := name } ctx.info).completed →
      ∃ before between,
        (get_by_name hd r ctx w).trace =
          before ++ event.notify_complete ctx.info code :: between ++
            [event.set_descriptor_argument_length 1 hd.sizeof_name_entry]) ∧
    (∀ addr, get_argument_data_from_descriptor w 0 = some addr →
      (ctx.info, code) ∈ (r.get_by_address w.backend addr entry ctx.info).completed →
      ∃ before between,
        (get_by_address hd r ctx w).trace =
          before ++ event.notify_complete ctx.info code :: between ++
            [event.set_descriptor_argument_length 1 hd.sizeof_name_entry]) := by
  have key : ∀ (cs : List (notify_info × Int)), (ctx.info, code) ∈ cs →
      ∃ a b, notifications cs = a ++ event.notify_complete ctx.info code :: b := by
    intro cs hm
    obtain ⟨a, b, hab⟩ := List.append_of_mem hm
    refine ⟨notifications a, notifications b, ?_⟩
    rw [hab]
    simp [notifications]
  refine ⟨fun name h0 hm => ?_, fun addr h0 hm => ?_⟩
  · have e := get_by_name_trace hd r ctx w
    rw [h0, h1] at e
    obtain ⟨a, b, hab⟩ := key _ hm
    refine ⟨w.trace ++ event.get_by_name { entry with name_ := name } ctx.info :: a, b, ?_⟩
    rw [e]
    simp only [] 
    rw [hab]
    simp
  · have e := get_by_address_trace hd r ctx w
    rw [h0, h1] at e
    obtain ⟨a, b, hab⟩ := key _ hm
    refine ⟨w.trace ++ event.get_by_address addr entry ctx.info :: a, b, ?_⟩
    rw [e]
    simp only []
    rw [hab]
    simp

/-- Witness for C15 (amended): `get_by_address` on the sample backend, which
fulfils the token inside the call. -/
theorem C15_fulfilment_precedes_length_write_witness :
    (get_descriptor_argument_ptr (sample_world (address_arg ⟨[10, 0, 0, 1]⟩) (buffer_arg 548)) 1 =
        some empty_entry ∧
      get_argument_data_from_descriptor
        (sample_world (address_arg ⟨[10, 0, 0, 1]⟩) (buffer_arg 548)) 0 = some ⟨[10, 0, 0, 1]⟩ ∧
      ((sample_context 43 9).info, (0 : Int)) ∈
        (sample_resolver.get_by_address () ⟨[10, 0, 0, 1]⟩ empty_entry
          (sample_context 43 9).info).completed) ∧
    ∃ before between,
      (get_by_address sample_headers sample_resolver (sample_context 43 9)
        (sample_world (address_arg ⟨[10, 0, 0, 1]⟩) (buffer_arg 548))).trace =
        before ++ event.notify_complete (sample_context 43 9).info 0 :: between ++
          [event.set_descriptor_argument_length 1 sample_headers.sizeof_name_entry] :=
  ⟨⟨rfl, rfl, by decide⟩,
   (C15_fulfilment_precedes_length_write sample_headers sample_resolver (sample_context 43 9)
      (sample_world (address_arg ⟨[10, 0, 0, 1]⟩) (buffer_arg 548)) empty_entry 0 rfl).2
      ⟨[10, 0, 0, 1]⟩ rfl (by decide)⟩

/-- C16: `get_host_name`, for every request and backend, asks the backend for
`host_name()`, writes the returned text to argument slot 0 and completes the
request once, with `error_none`; these are its only three actions, so it
passes no other code, calls no other backend operation and leaves the backend
state as it was. -/
theorem C16_get_host_name (hd : headers) (r : host_resolver β) (w : world β) :
    (get_host_name hd r w).trace =
      w.trace ++ [event.host_name, event.write_arg 0 (r.host_name w.backend),
        event.complete hd.error_none] ∧
    ctx_completions (get_host_name hd r w).trace = ctx_completions w.trace ++ [hd.error_none] ∧
    backend_calls (get_host_name hd r w).trace = backend_calls w.trace ++ [event.host_name] ∧
    tokens_handed (get_host_name hd r w).trace = tokens_handed w.trace ∧
    (get_host_name hd r w).backend = w.backend := by
  refine ⟨get_host_name_trace hd r w, ?_, ?_, ?_, rfl⟩
  · rw [get_host_name_trace, ctx_completions_append]; rfl
  · rw [get_host_name_trace, backend_calls_append]; rfl
  · rw [get_host_name_trace, tokens_handed_append]; exact List.append_nil _

end claims

end eka2l1.epoc.socket

namespace eka2l1.drivers.camera

/-- C14: for the null collection, `count()` is 0 and `make_camera(i)` is the
null pointer for every index `i`, index 0 included. -/
theorem C14_collection_null (camera_instance : Type) (i : Nat) :
    collection_null.count = 0 ∧
    (collection_null.make_camera i : Option camera_instance) = none ∧
    (collection_null.make_camera 0 : Option camera_instance) = none :=
  ⟨rfl, rfl, rfl⟩

end eka2l1.drivers.camera

namespace eka2l1

section strings

theorem size_sub_eq (a b : Nat) (ha : a < size_modulus) (hb : b ≤ a) : size_sub a b = a - b := by
  unfold size_sub
  unfold size_modulus at *
  have hb1 : b < 18446744073709551616 := by omega
  rw [Nat.mod_eq_of_lt ha, Nat.mod_eq_of_lt hb1]
  omega

theorem substr_zero (p : basic_string) (k : Nat) : substr p 0 k = some (p.take k) := by
  simp [substr]

theorem substr_from_take_length (p : basic_string) (k : Nat) :
    substr_from p (p.take k).length = some (p.drop (p.take k).length) := by
  unfold substr_from
  rw [if_neg]
  rw [List.length_take]
  omega

theorem take_append_drop_take_length (p : basic_string) (k : Nat) :
    p.take k ++ p.drop (p.take k).length = p := by
  by_cases hk : k ≤ p.length
  · rw [List.length_take, Nat.min_eq_left hk]
    exact List.take_append_drop k p
  · rw [List.take_of_length_le (by omega), List.drop_length]
    exact List.append_nil p

theorem find_last_of_none_iff (p : basic_string) (c : Nat) :
    find_last_of p c = none ↔ c ∉ p := by
  induction p with
  | nil => simp [find_last_of]
  | cons a t ih =>
    unfold find_last_of
    cases hf : find_last_of t c with
    | some j =>
      have : c ∈ t := by
        by_contra hn
        rw [ih.2 hn] at hf
        cases hf
      simp [this]
    | none =>
      have hn : c ∉ t := ih.1 hf
      by_cases hac : a = c
      · simp [hac]
      · simp [hac, hn, Ne.symm hac]

theorem find_last_of_some (p : basic_string) (c i : Nat) (h : find_last_of p c = some i) :
    i < p.length ∧ ∃ rest, p.drop i = c :: rest ∧ c ∉ rest := by
  induction p generalizing i with
  | nil => cases h
  | cons a t ih =>
    unfold find_last_of at h
    cases hf : find_last_of t c with
    | some j =>
      rw [hf] at h
      have hij : j + 1 = i := by simpa using h
      obtain ⟨hj, rest, hr, hn⟩ := ih j hf
      subst hij
      exact ⟨by simpa using hj, rest, by simpa using hr, hn⟩
    | none =>
      rw [hf] at h
      by_cases hac : a = c
      · have hi : 0 = i := by simpa [hac] using h
        subst hi
        refine ⟨by simp, t, by simp [hac], (find_last_of_none_iff t c).1 hf⟩
      · simp [hac] at h

theorem char_at_of_le (p : basic_string) (i : Nat) (h : i ≤ p.length) :
    ∃ c, char_at p i = some c := by
  unfold char_at
  by_cases hi : i < p.length
  · rw [if_pos hi]
    exact ⟨p[i], List.getElem?_eq_getElem hi⟩
  · rw [if_neg hi, if_pos (by omega)]
    exact ⟨0, rfl⟩

theorem char_at_zero_separator (p : basic_string) (c : Nat) (h : char_at p 0 = some c)
    (hs : is_separator c = true) : 1 ≤ p.length := by
  cases p with
  | nil =>
    have : c = 0 := by simpa [char_at] using h.symm
    subst this
    simp [is_separator] at hs
  | cons a t => simp

theorem has_drive_some (p : basic_string) : ∃ d, has_drive p = some d := by
  unfold has_drive
  by_cases h : p.length ≥ 2
  · obtain ⟨c, hc⟩ := char_at_of_le p 1 (by omega)
    rw [if_pos h, hc]
    exact ⟨_, rfl⟩
  · rw [if_neg h]
    exact ⟨_, rfl⟩

theorem has_net_some (p : basic_string) : ∃ n, has_net p = some n := by
  unfold has_net
  obtain ⟨c0, h0⟩ := char_at_of_le p 0 (Nat.zero_le _)
  rw [h0]
  by_cases hs : is_separator c0 = true
  · obtain ⟨c1, h1⟩ := char_at_of_le p 1 (char_at_zero_separator p c0 h0 hs)
    simp only [Option.some_bind, hs, if_true, h1, Option.map_some']
    exact ⟨_, rfl⟩
  · simp only [Option.some_bind, hs]
    exact ⟨_, rfl⟩

/-- Whatever `separator_func` is, `root_path_impl` returns, and what it
returns is the first `k` units of the path for some `k`. -/
theorem root_path_impl_take (p : basic_string) (symbian_use : Bool) (f : Bool → Nat) :
    ∃ k, root_path_impl p symbian_use f = some (p.take k) := by
  obtain ⟨d, hd⟩ := has_drive_some p
  obtain ⟨n, hn⟩ := has_net_some p
  obtain ⟨c0, h0⟩ := char_at_of_le p 0 (Nat.zero_le _)
  unfold root_path_impl
  rw [hd, hn]
  simp only [Option.some_bind]
  cases d with
  | true =>
    simp only [if_true]
    by_cases h2 : p.length > 2
    · obtain ⟨c2, hc2⟩ := char_at_of_le p 2 (by omega)
      rw [if_pos h2, hc2]
      simp only [Option.some_bind]
      by_cases hs : is_separator c2 = true
      · rw [if_pos hs]; exact ⟨3, substr_zero p 3⟩
      · rw [if_neg hs]; exact ⟨2, substr_zero p 2⟩
    · rw [if_neg h2]; exact ⟨2, substr_zero p 2⟩
  | false =>
    simp only [Bool.false_eq_true, if_false]
    cases n with
    | true =>
      simp only [if_true]
      cases find_first_of p (f symbian_use) 2 with
      | none => exact ⟨0, rfl⟩
      | some res => exact ⟨res, substr_zero p res⟩
    | false =>
      simp only [Bool.false_eq_true, if_false]
      rw [h0]
      simp only [Option.some_bind]
      by_cases hs : is_separator c0 = true
      · rw [if_pos hs]; exact ⟨1, substr_zero p 1⟩
      · rw [if_neg hs]; exact ⟨0, rfl⟩

theorem relative_path_impl_spec (root_path_of : basic_string → Bool → Option basic_string)
    (p : basic_string) (symbian_use : Bool) (k : Nat)
    (h : root_path_of p symbian_use = some (p.take k)) :
    ∃ root rel, root_path_of p symbian_use = some root ∧
      relative_path_impl root_path_of p symbian_use = some rel ∧
      root <+: p ∧ root ++ rel = p := by
  refine ⟨p.take k, p.drop (p.take k).length, h, ?_, List.take_prefix k p,
    take_append_drop_take_length p k⟩
  unfold relative_path_impl
  rw [h]
  exact substr_from_take_length p k

theorem has_drive_true (p : basic_string) (hlen : 2 ≤ p.length) (hcolon : p[1]? = some 58) :
    has_drive p = some true := by
  unfold has_drive char_at
  rw [if_pos hlen, if_pos (by omega), hcolon]
  rfl

theorem char_at_two (p : basic_string) (h2 : p.length > 2) : char_at p 2 = p[2]? := by
  unfold char_at
  rw [if_pos h2]

theorem getElem?_two_none (p : basic_string) (h2 : ¬ p.length > 2) : p[2]? = none :=
  List.getElem?_eq_none (by omega)

theorem substr_two_one (p : basic_string) (c : Nat) (h2 : p.length > 2) (hc : p[2]? = some c) :
    substr p 2 1 = some [c] := by
  unfold substr
  rw [if_neg (by omega)]
  match p, h2, hc with
  | _ :: _ :: x :: t, _, hc =>
    have : x = c := by simpa using hc
    simp [this]

theorem take_three (p : basic_string) (c : Nat) (hc : p[2]? = some c) :
    p.take 3 = p.take 2 ++ [c] := by
  match p, hc with
  | _ :: _ :: x :: t, hc =>
    have : x = c := by simpa using hc
    simp [this]

theorem rdropWhile_append_rtakeWhile (q : Nat → Bool) (l : basic_string) :
    l.rdropWhile q ++ l.rtakeWhile q = l := by
  unfold List.rdropWhile List.rtakeWhile
  rw [← List.reverse_append, List.takeWhile_append_dropWhile, List.reverse_reverse]

theorem rtakeWhile_congr (q1 q2 : Nat → Bool) (l : basic_string)
    (h : ∀ x ∈ l, q1 x = q2 x) : l.rtakeWhile q1 = l.rtakeWhile q2 := by
  induction l using List.reverseRecOn with
  | nil => rfl
  | append_singleton l x ih =>
    rw [List.rtakeWhile_concat, List.rtakeWhile_concat, h x (by simp),
      ih (fun y hy => h y (by simp [hy]))]

/-- The `for` loop started at an index inside the path keeps, in front of
what it was given, the longest run of kept units that ends at that index. -/
theorem filename_loop_eq (p : basic_string) (i : Nat) :
    ∀ fn, i < p.length →
      filename_loop p i fn = some ((p.take (i + 1)).rtakeWhile loop_unit ++ fn) := by
  induction i with
  | zero =>
    intro fn h
    have hx : p[0]? = some p[0] := List.getElem?_eq_getElem h
    have ht : p.take 1 = [] ++ [p[0]] := by
      rw [List.take_succ, hx]; rfl
    unfold filename_loop char_at
    rw [if_pos h, hx, ht, List.rtakeWhile_concat]
    cases hb : (is_separator p[0] || static_cast_char p[0] == 58) with
    | false =>
      have hk : loop_unit p[0] = true := by unfold loop_unit; rw [hb]; rfl
      rw [Option.map_some', if_neg (by rw [hb]; exact Bool.false_ne_true), if_pos hk]
      rfl
    | true =>
      have hk : loop_unit p[0] = false := by unfold loop_unit; rw [hb]; rfl
      rw [Option.map_some', if_pos hb, if_neg (by rw [hk]; exact Bool.false_ne_true)]
      rfl
  | succ i ih =>
    intro fn h
    have hx : p[i + 1]? = some p[i + 1] := List.getElem?_eq_getElem h
    have ht : p.take (i + 1 + 1) = p.take (i + 1) ++ [p[i + 1]] := by
      rw [List.take_succ, hx]; rfl
    unfold filename_loop char_at
    rw [if_pos h, hx, ht, List.rtakeWhile_concat]
    cases hb : (is_separator p[i + 1] || static_cast_char p[i + 1] == 58) with
    | false =>
      have hk : loop_unit p[i + 1] = true := by unfold loop_unit; rw [hb]; rfl
      rw [Option.some_bind, if_neg (by rw [hb]; exact Bool.false_ne_true), if_pos hk,
        ih _ (by omega), List.append_assoc]
      rfl
    | true =>
      have hk : loop_unit p[i + 1] = false := by unfold loop_unit; rw [hb]; rfl
      rw [Option.some_bind, if_pos hb, if_neg (by rw [hk]; exact Bool.false_ne_true)]
      rfl

/-- What `filename_impl` returns for any path an `int64_t` can index: the
longest run of kept units at the end of the path, with the units popped whose
cast to `char` is NUL. -/
theorem filename_impl_eq (p : basic_string) (su : Bool) (f : Bool → Nat)
    (hlen : p.length < 9223372036854775808) :
    filename_impl p su f = some (pop_nul (p.rtakeWhile loop_unit)) := by
  rcases List.eq_nil_or_concat p with rfl | ⟨q, x, hq⟩
  · rfl
  · rw [List.concat_eq_append] at hq
    subst hq
    have hl : (q ++ [x]).length = q.length + 1 := by simp
    rw [hl] at hlen
    have hs : size_sub (q ++ [x]).length 1 = q.length := by
      rw [hl, size_sub_eq _ _ (by unfold size_modulus; omega) (by omega)]; rfl
    have hc : char_at (q ++ [x]) q.length = some x := by
      unfold char_at
      rw [if_pos (by rw [hl]; omega)]
      simp
    have hend : char_at (q ++ [x]) (q.length + 1) = some 0 := by
      unfold char_at
      rw [if_neg (by rw [hl]; omega), if_pos hl.symm]
    have h64 : to_int64 (q ++ [x]).length = ((q.length + 1 : Nat) : Int) := by
      unfold to_int64 size_modulus
      rw [hl, Nat.mod_eq_of_lt (by omega), if_pos hlen]
    unfold filename_impl
    rw [if_neg (by rw [hl]; omega), hs, hc]
    simp only [Option.some_bind]
    by_cases hsep : is_separator x = true
    · rw [if_pos hsep, List.rtakeWhile_concat_neg]
      · rfl
      · unfold loop_unit; simp [hsep]
    · rw [if_neg hsep, h64, if_pos (Int.natCast_nonneg _), Int.toNat_natCast]
      have hloop : filename_loop (q ++ [x]) (q.length + 1) [] =
          some ((q ++ [x]).rtakeWhile loop_unit ++ [0]) := by
        have h0 : (is_separator 0 || static_cast_char 0 == 58) = false := by decide
        rw [filename_loop, hend]
        simp only [Option.some_bind, h0, Bool.false_eq_true, if_false]
        rw [filename_loop_eq _ _ _ (by rw [hl]; omega)]
        rw [List.take_of_length_le (by rw [hl])]
      rw [hloop]
      simp only [Option.map_some']
      unfold pop_nul
      rw [List.rdropWhile_concat_pos _ _ _ (by decide)]

theorem size_sub_one_le (n : Nat) (h : 1 ≤ n) : size_sub n 1 ≤ n := by
  unfold size_sub size_modulus
  omega

theorem to_int64_toNat_le (n : Nat) : (to_int64 n).toNat ≤ n := by
  unfold to_int64 size_modulus
  split_ifs <;> omega

theorem find_from_bound (ch : Nat) (t : basic_string) :
    ∀ i r, find_from ch t i = some r → i ≤ r ∧ r < i + t.length := by
  induction t with
  | nil => intro i r h; cases h
  | cons c t ih =>
    intro i r h
    unfold find_from at h
    by_cases hc : c = ch
    · rw [if_pos hc] at h
      have : i = r := by simpa using h
      subst this
      exact ⟨Nat.le_refl _, by simp⟩
    · rw [if_neg hc] at h
      obtain ⟨h1, h2⟩ := ih (i + 1) r h
      exact ⟨by omega, by simp only [List.length_cons]; omega⟩

theorem find_first_of_lt (p : basic_string) (ch pos res : Nat)
    (h : find_first_of p ch pos = some res) : res < p.length := by
  unfold find_first_of at h
  obtain ⟨h1, h2⟩ := find_from_bound ch (p.drop pos) pos res h
  rw [List.length_drop] at h2
  omega

theorem find_not_from_bound (ch : Nat) (t : basic_string) :
    ∀ i r, find_not_from ch t i = some r → i ≤ r ∧ r < i + t.length := by
  induction t with
  | nil => intro i r h; cases h
  | cons c t ih =>
    intro i r h
    unfold find_not_from at h
    by_cases hc : c = ch
    · rw [if_pos hc] at h
      obtain ⟨h1, h2⟩ := ih (i + 1) r h
      exact ⟨by omega, by simp only [List.length_cons]; omega⟩
    · rw [if_neg hc] at h
      have : i = r := by simpa using h
      subst this
      exact ⟨Nat.le_refl _, by simp⟩

theorem find_first_not_of_lt (p : basic_string) (ch res : Nat)
    (h : find_first_not_of p ch = some res) : res < p.length := by
  unfold find_first_not_of at h
  obtain ⟨h1, h2⟩ := find_not_from_bound ch p 0 res h
  omega

theorem substr_of_le (p : basic_string) (pos count : Nat) (h : pos ≤ p.length) :
    substr p pos count = some ((p.drop pos).take count) := by
  unfold substr
  rw [if_neg (by omega)]

theorem has_net_host_some (p : basic_string) (su : Bool) : ∃ n, has_net_host p su = some n := by
  obtain ⟨n, hn⟩ := has_net_some p
  unfold has_net_host
  rw [hn]
  exact ⟨_, rfl⟩

/-- Whatever the path, no read or `substr` of `root_name_impl` is out of
range: it returns. -/
theorem root_name_impl_some (p : basic_string) (su : Bool) (f : Bool → Nat) :
    ∃ r, root_name_impl p su f = some r := by
  obtain ⟨d, hd⟩ := has_drive_some p
  obtain ⟨n, hn⟩ := has_net_host_some p su
  unfold root_name_impl
  rw [hd, hn]
  simp only [Option.some_bind]
  cases d with
  | true => exact ⟨_, substr_zero p 2⟩
  | false =>
    cases n with
    | true =>
      simp only [Bool.false_eq_true, if_false, if_true]
      cases find_first_of p (f su) 2 with
      | none => exact ⟨_, rfl⟩
      | some res => exact ⟨_, substr_zero p res⟩
    | false => exact ⟨_, rfl⟩

/-- Whatever the path, no read or `substr` of `root_dir_impl` is out of
range: it returns. -/
theorem root_dir_impl_some (win32 : Bool) (p : basic_string) (su : Bool) (f : Bool → Nat) :
    ∃ r, root_dir_impl win32 p su f = some r := by
  obtain ⟨d, hd⟩ := has_drive_some p
  obtain ⟨n, hn⟩ := has_net_host_some p su
  obtain ⟨c0, h0⟩ := char_at_of_le p 0 (Nat.zero_le _)
  unfold root_dir_impl
  rw [hd, hn]
  simp only [Option.some_bind]
  cases d with
  | true =>
    simp only [if_true]
    by_cases h2 : p.length > 2
    · obtain ⟨c2, hc2⟩ := char_at_of_le p 2 (by omega)
      rw [if_pos h2, hc2]
      simp only [Option.some_bind]
      by_cases hs : is_separator c2 = true
      · rw [if_pos hs]; exact ⟨_, substr_of_le p 2 1 (by omega)⟩
      · rw [if_neg hs]; exact ⟨_, rfl⟩
    · rw [if_neg h2]; exact ⟨_, rfl⟩
  | false =>
    simp only [Bool.false_eq_true, if_false]
    cases n with
    | true =>
      simp only [if_true]
      cases hf : find_first_of p (get_separator win32 su) 2 with
      | none => exact ⟨_, rfl⟩
      | some res =>
        exact ⟨_, substr_of_le p res 1 (Nat.le_of_lt (find_first_of_lt p _ 2 res hf))⟩
    | false =>
      simp only [Bool.false_eq_true, if_false]
      by_cases h1 : p.length > 1
      · rw [if_pos h1, h0]
        simp only [Option.some_bind]
        by_cases hs : (is_separator c0 && !su) = true
        · rw [if_pos hs]; exact ⟨_, substr_zero p 1⟩
        · rw [if_neg hs]; exact ⟨_, rfl⟩
      · rw [if_neg h1]; exact ⟨_, rfl⟩

/-- The `for` loop of `filename_impl`, started at any index up to the length,
reads in range at every step and stops after at most `i + 1` steps. -/
theorem filename_loop_some (p : basic_string) (i : Nat) :
    ∀ fn, i ≤ p.length →
      ∃ r, filename_loop p i fn = some r ∧ r.length ≤ fn.length + (i + 1) := by
  induction i with
  | zero =>
    intro fn h
    obtain ⟨c, hc⟩ := char_at_of_le p 0 h
    unfold filename_loop
    rw [hc, Option.map_some']
    refine ⟨_, rfl, ?_⟩
    split_ifs
    · omega
    · simp
  | succ i ih =>
    intro fn h
    obtain ⟨c, hc⟩ := char_at_of_le p (i + 1) h
    unfold filename_loop
    rw [hc, Option.some_bind]
    by_cases hb : (is_separator c || static_cast_char c == 58) = true
    · rw [if_pos hb]
      exact ⟨fn, rfl, by omega⟩
    · rw [if_neg hb]
      obtain ⟨r, hr, hl⟩ := ih (c :: fn) (by omega)
      exact ⟨r, hr, by simp only [List.length_cons] at hl; omega⟩

/-- Whatever the path, no read of `filename_impl` is out of range: it
returns. -/
theorem filename_impl_some (p : basic_string) (su : Bool) (f : Bool → Nat) :
    ∃ r, filename_impl p su f = some r := by
  unfold filename_impl
  by_cases h1 : p.length < 1
  · rw [if_pos h1]; exact ⟨_, rfl⟩
  · rw [if_neg h1]
    obtain ⟨last, hlast⟩ := char_at_of_le p (size_sub p.length 1) (size_sub_one_le _ (by omega))
    rw [hlast, Option.some_bind]
    by_cases hs : is_separator last = true
    · rw [if_pos hs]; exact ⟨_, rfl⟩
    · rw [if_neg hs]
      by_cases h64 : to_int64 p.length ≥ 0
      · rw [if_pos h64]
        obtain ⟨r, hr, -⟩ := filename_loop_some p (to_int64 p.length).toNat []
          (to_int64_toNat_le _)
        rw [hr]
        exact ⟨_, rfl⟩
      · rw [if_neg h64]; exact ⟨_, rfl⟩

/-- Whatever the two paths and the normaliser, no read or `substr` of
`add_path_impl` is out of range: it returns. -/
theorem add_path_impl_some (ts : basic_string → Bool → (Bool → Nat) → basic_string)
    (path1 path2 : basic_string) (su : Bool) (f : Bool → Nat) :
    ∃ r, add_path_impl ts path1 path2 su f = some r := by
  unfold add_path_impl
  by_cases h0 : path1.length = 0 ∧ path2.length = 0
  · rw [if_pos h0]; exact ⟨_, rfl⟩
  · rw [if_neg h0]
    by_cases h1 : path1.length = 0
    · rw [if_pos h1]; exact ⟨_, rfl⟩
    · rw [if_neg h1]
      by_cases h2 : path2.length = 0
      · rw [if_pos h2]; exact ⟨_, rfl⟩
      · rw [if_neg h2]
        obtain ⟨last, hlast⟩ := char_at_of_le path1 (size_sub path1.length 1)
          (size_sub_one_le _ (by omega))
        obtain ⟨first, hfirst⟩ := char_at_of_le path2 0 (Nat.zero_le _)
        rw [hlast, hfirst]
        simp only [Option.some_bind]
        by_cases hb : (is_separator last && is_separator first) = true
        · rw [if_pos hb]
          cases hf : find_first_not_of path2 first with
          | none => exact ⟨_, rfl⟩
          | some pos_sub =>
            have hlt := find_first_not_of_lt path2 first pos_sub hf
            have hsub : substr_from path2 pos_sub = some (path2.drop pos_sub) := by
              unfold substr_from
              rw [if_neg (by omega)]
            simp only [hsub, Option.map_some']
            exact ⟨_, rfl⟩
        · rw [if_neg hb]
          split_ifs <;> exact ⟨_, rfl⟩

/-- The last unit of a non-empty path whose length a `size_t` can hold is the
unit that `path[path.size() - 1]` reads. -/
theorem char_at_last (q : basic_string) (x : Nat) (hlen : (q ++ [x]).length < size_modulus) :
    char_at (q ++ [x]) (size_sub (q ++ [x]).length 1) = some x := by
  have hl : (q ++ [x]).length = q.length + 1 := by simp
  rw [size_sub_eq _ _ hlen (by omega), hl]
  unfold char_at
  rw [if_pos (by rw [hl]; omega)]
  simp

/-- The join of two non-empty paths of which the second does not begin with
a separator, for any normaliser and separator function. -/
theorem add_path_impl_join (ts : basic_string → Bool → (Bool → Nat) → basic_string)
    (path1 path2 : basic_string) (su : Bool) (f : Bool → Nat)
    (hlen : path1.length < size_modulus) (h1 : path1 ≠ [])
    (hbeg : path2.head?.map is_separator = some false) :
    add_path_impl ts path1 path2 su f =
      some (ts (path1 ++ junction path1 (f su) ++ path2) su f) := by
  rcases List.eq_nil_or_concat path1 with hnil | ⟨q, x, hq⟩
  · exact absurd hnil h1
  · rw [List.concat_eq_append] at hq
    subst hq
    match path2, hbeg with
    | y :: t, hbeg =>
      have hy : is_separator y = false := by simpa using hbeg
      have hlast := char_at_last q x hlen
      have hfirst : char_at (y :: t) 0 = some y := by simp [char_at]
      have hj : junction (q ++ [x]) (f su) = if is_separator x = true then [] else [f su] := by
        unfold junction
        rw [List.getLast?_concat]
        by_cases hx : is_separator x = true
        · simp [hx]
        · simp [hx]
      unfold add_path_impl
      rw [if_neg (by simp), if_neg (by simp), if_neg (by simp), hlast, hfirst]
      simp only [Option.some_bind, hy, Bool.and_false, Bool.false_eq_true, if_false,
        Bool.not_false, Bool.and_true]
      rw [hj]
      by_cases hx : is_separator x = true
      · simp [hx]
      · simp [hx]

end strings

section path_claims

/-- C17: for every path whose length a `size_t` can hold, in both overloads,
`path_extension` returns an extension `e` with `replace_extension(p, e) = p`;
`e` is empty exactly when `p` holds no dot, and otherwise `e` is the rest of
`p` from its last dot on: it begins with the dot and holds no other dot. -/
theorem C17_extension_round_trip (p : basic_string) (hlen : p.length < size_modulus) :
    ∃ e, path_extension p = some e ∧ replace_extension p e = some p ∧
      (e = [] ↔ 46 ∉ p) ∧
      (46 ∈ p → ∃ stem rest, p = stem ++ e ∧ e = 46 :: rest ∧ 46 ∉ rest ∧ e.count 46 = 1) := by
  unfold path_extension replace_extension path_extension_impl replace_extension_impl
  cases hf : find_last_of p 46 with
  | none =>
    have hn : 46 ∉ p := (find_last_of_none_iff p 46).1 hf
    exact ⟨[], rfl, by simp, by simp [hn], fun hm => absurd hm hn⟩
  | some i =>
    obtain ⟨hi, rest, hr, hn⟩ := find_last_of_some p 46 i hf
    have hm : 46 ∈ p := by
      by_contra hc
      rw [(find_last_of_none_iff p 46).2 hc] at hf
      cases hf
    have hsub : substr p i (size_sub p.length i) = some (p.drop i) := by
      unfold substr
      rw [if_neg (by omega), size_sub_eq _ _ hlen (by omega)]
      rw [List.take_of_length_le (by rw [List.length_drop])]
    refine ⟨p.drop i, hsub, ?_, ?_, fun _ => ⟨p.take i, rest, ?_, hr, hn, ?_⟩⟩
    · show Option.map (fun head => head ++ List.drop i p) (substr p 0 i) = some p
      rw [substr_zero]
      simp
    · rw [hr]
      simp [hm]
    · exact (List.take_append_drop i p).symm
    · rw [hr, List.count_cons_self, List.count_eq_zero_of_not_mem hn]

/-- Witness for C17: the path "a.b.c". -/
theorem C17_extension_round_trip_witness :
    ([97, 46, 98, 46, 99] : basic_string).length < size_modulus ∧
    ∃ e, path_extension [97, 46, 98, 46, 99] = some e ∧
      replace_extension [97, 46, 98, 46, 99] e = some [97, 46, 98, 46, 99] ∧
      (e = [] ↔ 46 ∉ ([97, 46, 98, 46, 99] : basic_string)) ∧
      (46 ∈ ([97, 46, 98, 46, 99] : basic_string) →
        ∃ stem rest, [97, 46, 98, 46, 99] = stem ++ e ∧ e = 46 :: rest ∧ 46 ∉ rest ∧
          e.count 46 = 1) :=
  ⟨by decide, C17_extension_round_trip [97, 46, 98, 46, 99] (by decide)⟩

/-- C19: for every path and both values of `symbian_use`, on either platform
and in both overloads, `root_path` and `relative_path` return, the root path
is a leading part of the path, and the root path followed by the relative
path is the path. -/
theorem C19_root_path_relative_path (win32 : Bool) (p : basic_string) (symbian_use : Bool) :
    (∃ root rel, root_path win32 p symbian_use = some root ∧
      relative_path win32 p symbian_use = some rel ∧ root <+: p ∧ root ++ rel = p) ∧
    (∃ root rel, root_path_16 win32 p symbian_use = some root ∧
      relative_path_16 win32 p symbian_use = some rel ∧ root <+: p ∧ root ++ rel = p) := by
  constructor
  · obtain ⟨k, hk⟩ := root_path_impl_take p symbian_use (get_separator win32)
    exact relative_path_impl_spec (root_path win32) p symbian_use k hk
  · obtain ⟨k, hk⟩ := root_path_impl_take p symbian_use (get_separator_16 win32)
    exact relative_path_impl_spec (root_path_16 win32) p symbian_use k hk

/-- C20: for every path of length at least 2 whose second unit is the colon,
for both values of `symbian_use`, on either platform and in both overloads:
`root_name` is the first two units, `root_dir` is the third unit alone when
there is one and it is a separator and is empty otherwise, and `root_path` is
`root_name` followed by `root_dir`. -/
theorem C20_drive_prefixed (win32 : Bool) (p : basic_string) (symbian_use : Bool)
    (hlen : 2 ≤ p.length) (hcolon : p[1]? = some 58) :
    root_name win32 p symbian_use = some (p.take 2) ∧
    root_dir win32 p symbian_use =
      some (match p[2]? with
        | some c => if is_separator c then [c] else []
        | none => []) ∧
    (∃ name dir, root_name win32 p symbian_use = some name ∧
      root_dir win32 p symbian_use = some dir ∧
      root_path win32 p symbian_use = some (name ++ dir)) ∧
    root_name_16 win32 p symbian_use = root_name win32 p symbian_use ∧
    root_dir_16 win32 p symbian_use = root_dir win32 p symbian_use ∧
    root_path_16 win32 p symbian_use = root_path win32 p symbian_use := by
  have hd := has_drive_true p hlen hcolon
  obtain ⟨n, hn⟩ := has_net_some p
  have hname : root_name win32 p symbian_use = some (p.take 2) := by
    unfold root_name root_name_impl has_net_host
    rw [hd, hn]
    exact substr_zero p 2
  have hdir : root_dir win32 p symbian_use =
      some (match p[2]? with
        | some c => if is_separator c then [c] else []
        | none => []) := by
    unfold root_dir root_dir_impl has_net_host
    rw [hd, hn]
    simp only [Option.some_bind, Option.map_some', if_true]
    by_cases h2 : p.length > 2
    · rw [if_pos h2, char_at_two p h2]
      cases hc : p[2]? with
      | none => rw [List.getElem?_eq_none_iff] at hc; omega
      | some c =>
        simp only [Option.some_bind]
        by_cases hs : is_separator c = true
        · rw [if_pos hs, if_pos hs]; exact substr_two_one p c h2 hc
        · rw [if_neg hs, if_neg hs]
    · rw [if_neg h2, getElem?_two_none p h2]
  have hpath : root_path win32 p symbian_use =
      some (p.take 2 ++ (match p[2]? with
        | some c => if is_separator c then [c] else []
        | none => [])) := by
    unfold root_path root_path_impl
    rw [hd, hn]
    simp only [Option.some_bind, if_true]
    by_cases h2 : p.length > 2
    · rw [if_pos h2, char_at_two p h2]
      cases hc : p[2]? with
      | none => rw [List.getElem?_eq_none_iff] at hc; omega
      | some c =>
        simp only [Option.some_bind]
        by_cases hs : is_separator c = true
        · rw [if_pos hs, if_pos hs, substr_zero, take_three p c hc]
        · rw [if_neg hs, if_neg hs, substr_zero, List.append_nil]
    · rw [if_neg h2, getElem?_two_none p h2, substr_zero]
      exact congrArg some (List.append_nil _).symm
  exact ⟨hname, hdir, ⟨_, _, hname, hdir, hpath⟩, rfl, rfl, rfl⟩

/-- Witness for C20: the path "C:\a". -/
theorem C20_drive_prefixed_witness :
    (2 ≤ ([67, 58, 92, 97] : basic_string).length ∧
      ([67, 58, 92, 97] : basic_string)[1]? = some 58) ∧
    root_dir false [67, 58, 92, 97] true =
      some (match ([67, 58, 92, 97] : basic_string)[2]? with
        | some c => if is_separator c then [c] else []
        | none => []) :=
  ⟨⟨by decide, rfl⟩, (C20_drive_prefixed false [67, 58, 92, 97] true (by decide) rfl).2.1⟩

/-- The 8-bit overloads on a `std::string` without NUL: `filename` returns
the longest suffix free of separators and colons, and `file_directory`
returns what stands before it. -/
theorem filename_of_std_string (win32 : Bool) (p : basic_string) (su : Bool)
    (h8 : is_string p) (hnul : 0 ∉ p) (hlen : p.length < 9223372036854775808) :
    filename win32 p su = some (longest_plain_suffix p) ∧
    ∃ dir, file_directory win32 p su = some dir ∧ dir ++ longest_plain_suffix p = p := by
  have hcast : ∀ c ∈ p, static_cast_char c = c := fun c hc => Nat.mod_eq_of_lt (h8 c hc)
  have hunit : p.rtakeWhile loop_unit = longest_plain_suffix p :=
    rtakeWhile_congr _ _ _ (fun c hc => by unfold loop_unit plain_unit; rw [hcast c hc])
  have hsuf : longest_plain_suffix p <:+ p := List.rtakeWhile_suffix _ _
  have hpop : pop_nul (longest_plain_suffix p) = longest_plain_suffix p := by
    unfold pop_nul
    rw [List.rdropWhile_eq_self_iff]
    intro hl hc
    have hm : (longest_plain_suffix p).getLast hl ∈ p := hsuf.subset (List.getLast_mem hl)
    rw [hcast _ hm] at hc
    have h0 : (longest_plain_suffix p).getLast hl = 0 := by simpa using hc
    exact hnul (h0 ▸ hm)
  have hfn : filename win32 p su = some (longest_plain_suffix p) := by
    unfold filename
    rw [filename_impl_eq _ _ _ hlen, hunit, hpop]
  refine ⟨hfn, ?_⟩
  unfold file_directory file_directory_impl
  rw [hfn]
  simp only [Option.some_bind]
  have hp : p.rdropWhile plain_unit ++ longest_plain_suffix p = p :=
    rdropWhile_append_rtakeWhile plain_unit p
  by_cases he : longest_plain_suffix p = []
  · rw [if_pos he]
    exact ⟨p, rfl, by rw [he]; exact List.append_nil p⟩
  · rw [if_neg he]
    refine ⟨p.rdropWhile plain_unit, ?_, hp⟩
    have hlenp : p.length = (p.rdropWhile plain_unit).length + (longest_plain_suffix p).length := by
      conv_lhs => rw [← hp]
      exact List.length_append _ _
    have htake : (p.rdropWhile plain_unit ++ longest_plain_suffix p).take
        (p.rdropWhile plain_unit).length = p.rdropWhile plain_unit := List.take_left' rfl
    rw [hp] at htake
    rw [substr_zero, size_sub_eq _ _ (by unfold size_modulus; omega) (by omega)]
    have hk : p.length - (longest_plain_suffix p).length = (p.rdropWhile plain_unit).length := by
      omega
    rw [hk, htake]

/-- C18 (the code at the failing input): the 16-bit path "ab一", code units
97, 98 and 19968 (U+4E00), holds no NUL, no separator and no colon, so its
longest suffix free of them is the whole path. `filename` returns "ab": the
last unit is popped because its cast to `char` is NUL. `file_directory` then
returns "a", and the two joined are "aab", not the path. For the path "aкb",
code units 97, 1082 (U+043A) and 98, `filename` returns "b": the unit 1082
stops the loop because its cast to `char` is the colon. -/
theorem C18_u16_filename_truncates :
    (is_u16string [97, 98, 19968] ∧ 0 ∉ ([97, 98, 19968] : basic_string) ∧
      longest_plain_suffix [97, 98, 19968] = [97, 98, 19968]) ∧
    (filename_16 false [97, 98, 19968] false = some [97, 98] ∧
      file_directory_16 false [97, 98, 19968] false = some [97] ∧
      filename_16 false [97, 98, 19968] true = some [97, 98] ∧
      file_directory_16 false [97, 98, 19968] true = some [97]) ∧
    ([97] ++ [97, 98] : basic_string) ≠ [97, 98, 19968] ∧
    (is_u16string [97, 1082, 98] ∧ 0 ∉ ([97, 1082, 98] : basic_string) ∧
      longest_plain_suffix [97, 1082, 98] = [97, 1082, 98]) ∧
    filename_16 false [97, 1082, 98] false = some [98] := by
  refine ⟨⟨by decide, by decide, ?_⟩, ⟨?_, ?_, ?_, ?_⟩, by decide, ⟨by decide, by decide, ?_⟩, ?_⟩
    <;> rfl

/-- C21 (amended): outside the content-URI branch, on either platform, for
both values of `symbian_use` and in both overloads: `add_path("", "")` is
empty; `add_path(p, "")` and `add_path("", p)` are the separator-normalised
form of `p`; and for a non-empty `path1` (of a length a `size_t` can hold) and
a `path2` whose first unit is not a separator, `add_path(path1, path2)` is the
separator-normalised form of `path1 ++ s ++ path2`, where `s` is empty when
`path1` ends with a separator and is the single unit
`get_separator(symbian_use)` otherwise. So the unit in front of `path2` is a
separator and the join adds none to a `path1` that already ends with one; the
separators `path1` ends with are all kept, so the number that stand at the
junction is the number `path1` ends with, and one when it ends with none. -/
theorem C21_add_path (win32 : Bool) (su : Bool) (p path1 path2 : basic_string)
    (hlen : path1.length < size_modulus) (h1 : path1 ≠ [])
    (hbeg : path2.head?.map is_separator = some false) :
    add_path win32 [] [] su = some [] ∧
    add_path win32 p [] su = some (transform_separators p su (get_separator win32)) ∧
    add_path win32 [] p su = some (transform_separators p su (get_separator win32)) ∧
    add_path win32 path1 path2 su =
      some (transform_separators (path1 ++ junction path1 (get_separator win32 su) ++ path2)
        su (get_separator win32)) ∧
    ((path1.getLast?.map is_separator = some true ∧
        junction path1 (get_separator win32 su) = []) ∨
      (path1.getLast?.map is_separator = some false ∧
        junction path1 (get_separator win32 su) = [get_separator win32 su])) ∧
    is_separator (get_separator win32 su) = true ∧
    (path1 ++ junction path1 (get_separator win32 su)).getLast?.map is_separator = some true ∧
    (∀ a b, add_path_16 win32 a b su = add_path win32 a b su) ∧
    (junction_run path1 (get_separator win32 su)).length =
      max 1 (path1.rtakeWhile is_separator).length := by
  have hsep : is_separator (get_separator win32 su) = true := by
    cases win32 <;> cases su <;> rfl
  refine ⟨rfl, ?_, ?_, ?_, ?_, hsep, ?_, fun _ _ => rfl, ?_⟩
  · cases p with
    | nil => rfl
    | cons c t =>
      have hc : ¬ (c :: t).length = 0 := by simp
      unfold add_path add_path_impl
      rw [if_neg (fun h => hc h.1), if_neg hc, if_pos List.length_nil]
  · cases p with
    | nil => rfl
    | cons c t =>
      have hc : ¬ (c :: t).length = 0 := by simp
      unfold add_path add_path_impl
      rw [if_neg (fun h => hc h.2), if_pos List.length_nil]
  · exact add_path_impl_join transform_separators path1 path2 su (get_separator win32)
      hlen h1 hbeg
  · rcases List.eq_nil_or_concat path1 with hnil | ⟨q, x, hq⟩
    · exact absurd hnil h1
    · rw [List.concat_eq_append] at hq
      subst hq
      unfold junction
      rw [List.getLast?_concat]
      by_cases hx : is_separator x = true
      · left; simp [hx]
      · right; simp [hx]
  · rcases List.eq_nil_or_concat path1 with hnil | ⟨q, x, hq⟩
    · exact absurd hnil h1
    · rw [List.concat_eq_append] at hq
      subst hq
      unfold junction
      rw [List.getLast?_concat]
      by_cases hx : is_separator x = true
      · simp [hx]
      · simp [hx, hsep]
  · rcases List.eq_nil_or_concat path1 with hnil | ⟨q, x, hq⟩
    · exact absurd hnil h1
    · rw [List.concat_eq_append] at hq
      subst hq
      unfold junction_run junction
      rw [List.getLast?_concat]
      by_cases hx : is_separator x = true
      · have hj : (Option.map is_separator (some x) = some true) := by simp [hx]
        rw [if_pos hj, List.append_nil, List.rtakeWhile_concat_pos _ _ _ hx]
        simp
      · have hj : ¬ (Option.map is_separator (some x) = some true) := by simp [hx]
        rw [if_neg hj, List.rtakeWhile_concat_pos _ _ _ hsep,
          List.rtakeWhile_concat_neg _ _ _ hx]
        rfl

/-- Witness for C21 (amended): `add_path("a//", "b")` without `symbian_use`,
where `path1` ends with two separators and both stand at the junction. -/
theorem C21_add_path_witness :
    (([97, 47, 47] : basic_string).length < size_modulus ∧ ([97, 47, 47] : basic_string) ≠ [] ∧
      ([98] : basic_string).head?.map is_separator = some false) ∧
    add_path false [97, 47, 47] [98] false =
      some (transform_separators
        ([97, 47, 47] ++ junction [97, 47, 47] (get_separator false false) ++ [98])
        false (get_separator false)) ∧
    (junction_run [97, 47, 47] (get_separator false false)).length =
      max 1 (([97, 47, 47] : basic_string).rtakeWhile is_separator).length :=
  ⟨⟨by decide, by decide, rfl⟩,
   (C21_add_path false false [] [97, 47, 47] [98] (by decide) (by decide) rfl).2.2.2.1,
   (C21_add_path false false [] [97, 47, 47] [98] (by decide) (by decide) rfl).2.2.2.2.2.2.2.2⟩

/-- C21 (as stated, refuted): `add_path("a//", "b")` on a platform other
than WIN32 and without `symbian_use`. Both paths are non-empty and "b" does
not begin with a separator; `path1` ends with a separator, so `s` is empty and
the result is the normalised "a//" ++ "" ++ "b", which is "a//b". Two
separators stand at the junction, not exactly one. -/
theorem C21_two_separators_at_junction :
    (([97, 47, 47] : basic_string) ≠ [] ∧
      ([98] : basic_string).head?.map is_separator = some false) ∧
    junction [97, 47, 47] (get_separator false false) = [] ∧
    add_path false [97, 47, 47] [98] false =
      some (transform_separators
        ([97, 47, 47] ++ junction [97, 47, 47] (get_separator false false) ++ [98])
        false (get_separator false)) ∧
    add_path false [97, 47, 47] [98] false = some [97, 47, 47, 98] ∧
    junction_run [97, 47, 47] (get_separator false false) = [47, 47] ∧
    (junction_run [97, 47, 47] (get_separator false false)).length ≠ 1 := by
  refine ⟨⟨by decide, rfl⟩, rfl, rfl, rfl, ?_, ?_⟩
  · decide
  · decide

/-- C22: for every path, the empty and the one-unit paths included, on
either platform, for both values of `symbian_use` and in both overloads,
`root_name`, `root_dir`, `root_path`, `filename` and `add_path` (for every
second path) return a result: no read `path[i]` with `i` beyond the length
and no `substr` beyond the length is ever reached. A read yields nothing
exactly for an index beyond the length, and at the length it yields NUL. The
backward loop of `filename`, started at any index up to the length, returns
after at most one step per index from there down to 0. -/
theorem C22_reads_in_range (win32 : Bool) (p path2 : basic_string) (su : Bool) :
    (∀ i, char_at p i = none ↔ p.length < i) ∧
    char_at p p.length = some 0 ∧
    (∃ r, root_name win32 p su = some r) ∧
    (∃ r, root_dir win32 p su = some r) ∧
    (∃ r, root_path win32 p su = some r) ∧
    (∃ r, filename win32 p su = some r) ∧
    (∃ r, add_path win32 p path2 su = some r) ∧
    (∃ r, add_path win32 path2 p su = some r) ∧
    (∃ r, root_name_16 win32 p su = some r) ∧
    (∃ r, root_dir_16 win32 p su = some r) ∧
    (∃ r, root_path_16 win32 p su = some r) ∧
    (∃ r, filename_16 win32 p su = some r) ∧
    (∃ r, add_path_16 win32 p path2 su = some r) ∧
    (∀ i fn, i ≤ p.length →
      ∃ r, filename_loop p i fn = some r ∧ r.length ≤ fn.length + (i + 1)) := by
  have hpath : ∀ f, ∃ r, root_path_impl p su f = some r := fun f => by
    obtain ⟨k, hk⟩ := root_path_impl_take p su f
    exact ⟨_, hk⟩
  refine ⟨fun i => ?_, ?_, root_name_impl_some p su _, root_dir_impl_some win32 p su _,
    hpath _, filename_impl_some p su _, add_path_impl_some _ p path2 su _,
    add_path_impl_some _ path2 p su _, root_name_impl_some p su _,
    root_dir_impl_some win32 p su _, hpath _, filename_impl_some p su _,
    add_path_impl_some _ p path2 su _, fun i fn h => filename_loop_some p i fn h⟩
  · unfold char_at
    by_cases h1 : i < p.length
    · rw [if_pos h1]
      constructor
      · intro hn
        rw [List.getElem?_eq_getElem h1] at hn
        cases hn
      · intro hlt; omega
    · rw [if_neg h1]
      by_cases h2 : i = p.length
      · rw [if_pos h2]
        constructor
        · intro hn; cases hn
        · intro hlt; omega
      · rw [if_neg h2]
        constructor
        · intro _; omega
        · intro _; rfl
  · unfold char_at
    rw [if_neg (Nat.lt_irrefl _), if_pos rfl]

/-- Witness for C22: the loop of `filename` on the one-unit path "a", started
at its length. -/
theorem C22_reads_in_range_witness :
    1 ≤ ([97] : basic_string).length ∧
    ∃ r, filename_loop [97] 1 [] = some r ∧ r.length ≤ ([] : basic_string).length + (1 + 1) :=
  ⟨by decide, (C22_reads_in_range false [97] [] false).2.2.2.2.2.2.2.2.2.2.2.2.2 1 [] (by decide)⟩

end path_claims

end eka2l1

